import Mathlib

/-!
# Verification of the crypto-repos ingestion core

Shallow embedding of the ingestion pipeline of the crypto-repos repository:

* `EcosystemParser` models `src/lib/github/parser.ts` (`parseEcosystemFile`):
  line-oriented extraction of GitHub URLs from ecosystem TOML sources.
* `RateLimiter` models `src/lib/github/rate-limiter.ts`: the admission queue,
  the drain loop `processQueue`, `calculateDelay`, `acquire` and the timeout
  handler `handleTimeout`.  Time is modelled by an explicit millisecond clock
  that advances by exactly the `setTimeout` durations the code awaits;
  admission of a queue item is the resolution of its promise and is recorded
  together with the clock value at which it happens.  Failures of the
  `saveState` call inside the drain loop (the only fallible operation there)
  are injected through an explicit plan of booleans, one per processed item.
* `GithubClient` models the retry/error-handling skeleton of
  `fetchRepository` in `src/lib/github/parser.ts` (the unified GitHub API
  client): `retryWithBackoff` and the 404 / 403 / generic error mapping that
  follows it.  The network call is abstracted as an oracle giving the outcome
  of each attempt; the cache-hit path (which returns without touching the
  retry loop) is not taken.
* `RepositoryService` models `src/lib/github/repository-service.ts`: the
  pending batch, `queueRepository`, `processBatch` (including the
  `INSERT ... ON CONFLICT (id) DO UPDATE` column list and the topics
  delete-and-reinsert), and `flush`.  The database is modelled as an explicit
  `Storage` value; a transaction either commits atomically (`ok = true`) or
  fails and is rolled back (`ok = false`), matching `BEGIN`/`COMMIT`/`ROLLBACK`.
-/

namespace CryptoRepos

/-! ## Error values (src/lib/utils/errors.ts)

`BaseError` carries `name`, `code`, `statusCode` and a `details` record; the
only detail the rate limiter ever sets is `retryAfter`, so that is the one
detail field modelled. -/

/-- A thrown error value, as built by the classes of `errors.ts`. -/
structure JsError where
  name : String
  code : String
  message : String
  statusCode : Nat
  retryAfter : Option Nat
deriving DecidableEq

/-- `new RateLimitError(message, retryAfter)`: code `RATE_LIMIT_ERROR`,
status 429, `retryAfter` stored in the details record. -/
def mkRateLimitError (message : String) (retryAfter : Option Nat) : JsError :=
  ⟨"RateLimitError", "RATE_LIMIT_ERROR", message, 429, retryAfter⟩

/-! ## Ecosystem source reader (parseEcosystemFile, parser.ts lines 10-41) -/

namespace EcosystemParser

/-- JavaScript `s.trim()`: strip whitespace from both ends. -/
def jsTrim (s : String) : String :=
  String.mk (((s.data.dropWhile Char.isWhitespace).reverse.dropWhile Char.isWhitespace).reverse)

/-- JavaScript `s.startsWith(pat)`. -/
def jsStartsWith (s pat : String) : Bool :=
  pat.data.isPrefixOf s.data

/-- Substring test on character lists: JavaScript `hay.includes(pat)`. -/
def charsIncl (hay pat : List Char) : Bool :=
  (List.range (hay.length + 1)).any (fun i => pat.isPrefixOf (hay.drop i))

/-- JavaScript `s.includes(pat)`. -/
def strIncludes (s pat : String) : Bool :=
  charsIncl s.data pat.data

/-- Attempt to match the regex `url\s*=\s*"([^"]+)"` anchored at the head of
the character list, returning the capture group.  The regex has no real
backtracking: each `\s*` is followed by a character `\s` cannot match, and
`[^"]+` is followed by `"`. -/
def matchUrlAt : List Char → Option (List Char)
  | 'u' :: 'r' :: 'l' :: rest =>
    match rest.dropWhile (fun c => c.isWhitespace) with
    | '=' :: rest2 =>
      match rest2.dropWhile (fun c => c.isWhitespace) with
      | '"' :: rest3 =>
        let value := rest3.takeWhile (fun c => !(c == '"'))
        match rest3.dropWhile (fun c => !(c == '"')) with
        | '"' :: _ => if value.isEmpty then none else some value
        | _ => none
      | _ => none
    | _ => none
  | _ => none

/-- Leftmost match of `url\s*=\s*"([^"]+)"`, as JavaScript
`line.match(/url\s*=\s*"([^"]+)"/)`, returning the first capture group. -/
def firstUrlMatch : List Char → Option (List Char)
  | [] => none
  | c :: rest =>
    match matchUrlAt (c :: rest) with
    | some v => some v
    | none => firstUrlMatch rest

/-- One iteration of the `for await (const line of rl)` loop body of
`parseEcosystemFile`: skip comment/blank lines, require the substring
`url =`, match the url regex, and keep the value only if it mentions
`github.com`.  Returns the URL the line contributes, if any. -/
def parseLine (line : String) : Option String :=
  if jsStartsWith (jsTrim line) "#" || jsTrim line == "" then none
  else if strIncludes line "url =" then
    match firstUrlMatch line.data with
    | some v => if strIncludes (String.mk v) "github.com" then some (String.mk v) else none
    | none => none
  else none

/-- The whole line loop of `parseEcosystemFile` over the file's lines. -/
def parseEcosystemLines (lines : List String) : List String :=
  lines.filterMap parseLine

/-- `parseEcosystemFile`: `none` stands for a missing or unreadable source
file (the `catch` branch returns `[]`). -/
def parseEcosystemFile (file : Option (List String)) : List String :=
  match file with
  | none => []
  | some lines => parseEcosystemLines lines

/-- Claim-side description (C9): a line is skipped when it is a comment or
blank. -/
def isSkippedLine (line : String) : Bool :=
  jsStartsWith (jsTrim line) "#" || jsTrim line == ""

/-- Claim-side description (C9): the quoted value of a line matching the
`url = "<value>"` pattern, kept only when the value carries the
`github.com` host marker. -/
def urlOfLine (line : String) : Option String :=
  if strIncludes line "url =" then
    match firstUrlMatch line.data with
    | some v => if strIncludes (String.mk v) "github.com" then some (String.mk v) else none
    | none => none
  else none

/-- Claim-side description (C9), assembled as the claim reads: first drop the
comment and blank lines, then take, in file order, the quoted values of the
lines matching the url pattern whose value mentions `github.com`. -/
def specUrlExtraction (lines : List String) : List String :=
  (lines.filter (fun l => !isSkippedLine l)).filterMap urlOfLine

end EcosystemParser

/-! ## Rate limiter (src/lib/github/rate-limiter.ts) -/

namespace RateLimiter

def MAX_RETRIES : Nat := 3
def RETRY_DELAY : Nat := 5000
def REQUEST_TIMEOUT : Nat := 30000
def BASE_DELAY : Nat := 1000
def MAX_DELAY : Nat := 5000
def BURST_SIZE : Nat := 10
def BURST_DELAY : Nat := 10000
def HOURLY_LIMIT : Nat := 4500

/-- A `QueueItem` of the admission queue.  `uid` models the JavaScript object
identity of the item (used by `handleTimeout`'s `findIndex` comparison);
`repoName` is the resource key passed to `acquire`.  `hasTimer` models
whether the item's `timeout` timer is still armed: `acquire` arms it, and
the drain loop's `clearTimeout(item.timeout)` — executed at the start of an
admission attempt, before anything fallible — disarms it, so an item pushed
back onto the queue after a failed attempt carries no timer and
`handleTimeout` can never fire for it. -/
structure QueueItem where
  uid : Nat
  repoName : String
  queuedAt : Nat
  retryCount : Nat
  hasTimer : Bool
deriving DecidableEq

/-- The persisted `RateLimiterState` document. -/
structure RateLimiterState where
  tokens : Nat
  resetTime : Nat
  totalRequestsThisHour : Nat
  lastRequestTime : Nat
  lastStatusLog : Nat
  lastError : Option (String × Nat)
  failedPromisesCount : Nat
  failedPromisesLastReset : Nat
deriving DecidableEq

/-- `getDefaultState()`. -/
def getDefaultState (now : Nat) : RateLimiterState :=
  ⟨5000, now + 3600000, 0, 0, 0, none, 0, now⟩

/-- `calculateDelay()`: the base delay grows multiplicatively once the used
fraction of the hourly budget passes 0.8, 0.9 and 0.95 (`usageRatio =
totalRequestsThisHour / HOURLY_LIMIT`, the comparisons are written
cross-multiplied), and the result is floored by `BASE_DELAY` minus the time
elapsed since the last request. -/
def calculateDelay (state : RateLimiterState) (now : Nat) : Int :=
  let timeSinceLastRequest : Int := (now : Int) - (state.lastRequestTime : Int)
  let d1 : Int := (BASE_DELAY : Int)
  let d2 : Int := if 5 * state.totalRequestsThisHour > 4 * HOURLY_LIMIT then d1 * 3 / 2 else d1
  let d3 : Int := if 10 * state.totalRequestsThisHour > 9 * HOURLY_LIMIT then d2 * 2 else d2
  let d4 : Int := if 20 * state.totalRequestsThisHour > 19 * HOURLY_LIMIT then (MAX_DELAY : Int) else d3
  max d4 ((BASE_DELAY : Int) - timeSinceLastRequest)

/-- State of the drain loop `processQueue`.  `clock` is the current time in
milliseconds; `admitted` records `(uid, time)` for every promise resolution,
in order; `rejected` records the uids rejected after exhausting retries. -/
structure DrainState where
  queue : List QueueItem
  state : RateLimiterState
  clock : Nat
  admitted : List (Nat × Nat)
  rejected : List Nat
deriving DecidableEq

/-- One iteration of the inner `for` loop of `processQueue` (lines 308-363):
shift the head item, clear its timeout timer (`clearTimeout(item.timeout)`,
the first statement of the `try`, so it runs before anything fallible),
count the request (`totalRequestsThisHour++`, `lastRequestTime =
Date.now()`), persist, resolve, and sleep for the adaptive delay.  `plan`
injects failures of the `saveState` call: when the head of `plan` is `true`
the save throws and the `catch` branch runs — the item is pushed back on the
tail with its retry count bumped and, its timer having already been
cleared, with `hasTimer := false` (no 30-second timeout guards it any
more), and the loop sleeps `RETRY_DELAY` (retries left); or the item is
rejected and the failed-promise counter bumped (retries exhausted; that
branch does not sleep). -/
def itemStep (ds : DrainState) (plan : List Bool) : DrainState × List Bool :=
  match ds.queue with
  | [] => (ds, plan)
  | item :: rest =>
    let fail := plan.headD false
    let plan' := plan.tail
    let state1 : RateLimiterState :=
      { ds.state with
        totalRequestsThisHour := ds.state.totalRequestsThisHour + 1,
        lastRequestTime := ds.clock }
    if fail then
      if item.retryCount < MAX_RETRIES then
        ({ ds with
            queue := rest ++ [{ item with retryCount := item.retryCount + 1, hasTimer := false }],
            state := { state1 with lastError := some ("Failed to save rate limiter state", ds.clock) },
            clock := ds.clock + RETRY_DELAY }, plan')
      else
        ({ ds with
            queue := rest,
            state := { state1 with failedPromisesCount := state1.failedPromisesCount + 1 },
            rejected := ds.rejected ++ [item.uid] }, plan')
    else
      ({ ds with
          queue := rest,
          state := state1,
          admitted := ds.admitted ++ [(item.uid, ds.clock)],
          clock := ds.clock + (calculateDelay state1 ds.clock).toNat }, plan')

/-- The inner `for (let i = 0; i < currentBurst; i++)` loop. -/
def burstLoop : Nat → DrainState → List Bool → DrainState × List Bool
  | 0, ds, plan => (ds, plan)
  | n + 1, ds, plan =>
    let r := itemStep ds plan
    burstLoop n r.1 r.2

/-- The outer `while (this.queue.length > 0)` loop of `processQueue`:
compute the burst size `min(BURST_SIZE, queue.length, ceil(tokens/100 *
BURST_SIZE))`; when it is zero sleep `MAX_DELAY` and retry; otherwise run the
burst and, if the queue is still non-empty, sleep the queue-depth-scaled
burst delay `min(BURST_DELAY * queue.length/100, BURST_DELAY * 2)`.  `fuel`
bounds the number of iterations (the source loop is unbounded). -/
def drain : Nat → DrainState → List Bool → DrainState
  | 0, ds, _ => ds
  | fuel + 1, ds, plan =>
    if ds.queue.isEmpty then ds
    else
      let currentBurst :=
        min BURST_SIZE (min ds.queue.length ((ds.state.tokens * BURST_SIZE + 99) / 100))
      if currentBurst = 0 then
        drain fuel { ds with clock := ds.clock + MAX_DELAY } plan
      else
        let r := burstLoop currentBurst ds plan
        let ds2 :=
          if r.1.queue.isEmpty then r.1
          else { r.1 with clock := r.1.clock + min (BURST_DELAY * r.1.queue.length / 100) (BURST_DELAY * 2) }
        drain fuel ds2 r.2

/-- `acquire(key)`: append a fresh queue item with its timeout timer armed,
scheduled `REQUEST_TIMEOUT` ms from now.  Returns the new queue and the
time at which `handleTimeout` fires — but only if the timer is still armed
then: the drain loop clears it the moment the item enters an admission
attempt, so an item re-queued after a failed attempt is no longer guarded
by the timer at all. -/
def acquire (queue : List QueueItem) (key : String) (uid now : Nat) : List QueueItem × Nat :=
  (queue ++ [⟨uid, key, now, 0, true⟩], now + REQUEST_TIMEOUT)

/-- `findIndex` + `splice(index, 1)` of `handleTimeout`: remove the first
item with the given identity, `none` when the item is no longer queued
(`findIndex` returned `-1`). -/
def removeFirstTimedOut (uid : Nat) : List QueueItem → Option (List QueueItem)
  | [] => none
  | item :: rest =>
    if item.uid == uid then some rest
    else
      match removeFirstTimedOut uid rest with
      | some rest' => some (item :: rest')
      | none => none

/-- Result of `handleTimeout`: the queue after the splice, the state after
`updateFailedPromises`, and the rejection error (when the item was found). -/
structure TimeoutResult where
  queue : List QueueItem
  state : RateLimiterState
  rejectedWith : Option JsError
deriving DecidableEq

/-- `handleTimeout(item)` (lines 235-245): if the item is still in the queue
it is spliced out and its promise rejected with
`new RateLimitError('Request timed out', 408)`, and the failed-promise
counter is persisted incremented; otherwise nothing happens. -/
def handleTimeout (queue : List QueueItem) (st : RateLimiterState) (uid : Nat) : TimeoutResult :=
  match removeFirstTimedOut uid queue with
  | some queue' =>
    ⟨queue',
     { st with failedPromisesCount := st.failedPromisesCount + 1 },
     some (mkRateLimitError "Request timed out" (some 408))⟩
  | none => ⟨queue, st, none⟩

end RateLimiter

/-! ## Repository data (src/lib/repository.ts shapes used by the writer) -/

/-- `owner` sub-object of a fetched repository. -/
structure RepoOwner where
  html_url : String
  login : String
deriving DecidableEq

/-- `license` sub-object of a fetched repository. -/
structure LicenseInfo where
  name : String
deriving DecidableEq

/-- `GithubRepositoryStats`: the normalized record built by
`fetchRepository`. -/
structure GithubRepositoryStats where
  id : Nat
  name : String
  full_name : String
  description : Option String
  html_url : String
  homepage : Option String
  language : Option String
  topics : List String
  stargazers_count : Nat
  watchers_count : Nat
  forks_count : Nat
  fork : Bool
  owner : RepoOwner
  created_at : String
  updated_at : String
  pushed_at : Option String
  license : Option LicenseInfo
  languages_url : String
  contributors_count : Nat
deriving DecidableEq

/-- `ExtendedRepositoryStats`: a fetched record plus the ecosystem/category
tags attached by `queueRepository`. -/
structure ExtendedRepositoryStats extends GithubRepositoryStats where
  ecosystem : String
  category : String
deriving DecidableEq

/-! ## Batch upsert writer (src/lib/github/repository-service.ts) -/

namespace RepositoryService

def BATCH_SIZE : Nat := 50
def MIN_BATCH_INTERVAL : Nat := 5000

/-- One row of the `repositories` table, with exactly the columns the
writer's `INSERT` statement provides.  `updated_in_db` is set by the
`ON CONFLICT` update (`CURRENT_TIMESTAMP`); a freshly inserted row leaves it
to the column default, modelled as `none`. -/
structure RepoRow where
  id : Nat
  name : String
  full_name : String
  description : Option String
  html_url : String
  homepage : Option String
  language : Option String
  stargazers_count : Nat
  watchers_count : Nat
  forks_count : Nat
  fork : Bool
  owner_html_url : String
  created_at : String
  updated_at : String
  pushed_at : Option String
  license_name : Option String
  languages_url : String
  ecosystem : String
  category : String
  updated_in_db : Option Nat
deriving DecidableEq

/-- The tables the writer touches: `repositories` and `repository_topics`
(rows `(repository_id, topic)`). -/
structure Storage where
  repositories : List RepoRow
  repository_topics : List (Nat × String)
deriving DecidableEq

/-- The parameter tuple of one `VALUES` row of the bulk upsert
(`repoParams`, lines 129-149). -/
def rowOfRepo (repo : ExtendedRepositoryStats) : RepoRow :=
  { id := repo.id
    name := repo.name
    full_name := repo.full_name
    description := repo.description
    html_url := repo.html_url
    homepage := repo.homepage
    language := repo.language
    stargazers_count := repo.stargazers_count
    watchers_count := repo.watchers_count
    forks_count := repo.forks_count
    fork := repo.fork
    owner_html_url := repo.owner.html_url
    created_at := repo.created_at
    updated_at := repo.updated_at
    pushed_at := repo.pushed_at
    license_name := repo.license.map (fun li => li.name)
    languages_url := repo.languages_url
    ecosystem := repo.ecosystem
    category := repo.category
    updated_in_db := none }

/-- The `ON CONFLICT (id) DO UPDATE SET` list (lines 114-126): only `name`,
`description`, `html_url`, `homepage`, `language`, the three counts,
`updated_at`, `ecosystem` and `category` take the excluded row's values, and
`updated_in_db` becomes the current timestamp; every other column — in
particular `full_name`, `fork`, `owner_html_url`, `created_at`, `pushed_at`,
`license_name` and `languages_url` — keeps the stored row's value. -/
def applyConflictUpdate (old excluded : RepoRow) (now : Nat) : RepoRow :=
  { old with
    name := excluded.name
    description := excluded.description
    html_url := excluded.html_url
    homepage := excluded.homepage
    language := excluded.language
    stargazers_count := excluded.stargazers_count
    watchers_count := excluded.watchers_count
    forks_count := excluded.forks_count
    updated_at := excluded.updated_at
    ecosystem := excluded.ecosystem
    category := excluded.category
    updated_in_db := some now }

/-- Effect of one `VALUES` row of `INSERT ... ON CONFLICT (id) DO UPDATE` on
the `repositories` table. -/
def upsertRow (rows : List RepoRow) (r : RepoRow) (now : Nat) : List RepoRow :=
  if rows.any (fun row => row.id == r.id) then
    rows.map (fun row => if row.id == r.id then applyConflictUpdate row r now else row)
  else rows ++ [r]

/-- `DELETE FROM repository_topics WHERE repository_id = $1` followed by the
re-insert of the record's topic list (lines 158-163). -/
def replaceTopics (topics : List (Nat × String)) (repoId : Nat) (newTopics : List String) :
    List (Nat × String) :=
  topics.filter (fun p => !(p.1 == repoId)) ++ newTopics.map (fun t => (repoId, t))

/-- The committed effect of one batch transaction: the bulk upsert of all
rows, then, for each record whose topic list is non-empty
(`if (repo.topics?.length)`), the delete-and-reinsert of its topics. -/
def commitBatch (store : Storage) (batch : List ExtendedRepositoryStats) (now : Nat) : Storage :=
  let repositories :=
    batch.foldl (fun rows repo => upsertRow rows (rowOfRepo repo) now) store.repositories
  let repository_topics :=
    batch.foldl
      (fun tps repo => if repo.topics.isEmpty then tps else replaceTopics tps repo.id repo.topics)
      store.repository_topics
  ⟨repositories, repository_topics⟩

/-- The writer's mutable fields. -/
structure RepositoryServiceState where
  batch : List ExtendedRepositoryStats
  processedRepos : List String
  processing : Bool
  lastProcessTime : Nat
deriving DecidableEq

/-- A delay awaited by `processBatch`: the minimum-inter-batch-interval wait
(line 82), or the error-path backoff (line 180), whose duration in the
source is `Math.min(5000 * Math.pow(2, backlog / BATCH_SIZE), 30000)` ms —
exponential in the backlog left on the batch, capped at 30s. -/
inductive WriterEvent where
  | minIntervalWait (ms : Nat)
  | errorBackoff (backlog : Nat)
deriving DecidableEq

/-- Result of one `processBatch` (or `flush`) call, at the point where its
promise resolves.  `attempted` is false when the guard
`if (this.processing || this.batch.length === 0) return` fired.  The
`setImmediate(() => this.processBatch())` rescheduling in the `finally`
block runs only after the promise has resolved and is outside this step. -/
structure BatchStep where
  state : RepositoryServiceState
  store : Storage
  events : List WriterEvent
  attempted : Bool
deriving DecidableEq

/-- `processBatch()` (lines 76-190).  `ok` tells whether the transaction
(including the rate-limiter acquires inside it) succeeds; on success the
spliced records are committed and their names added to `processedRepos`; on
failure the store is left as `ROLLBACK` leaves it, the snapshot is
`unshift`ed back onto the front of the batch, and the backlog-sized backoff
delay is awaited before the promise resolves. -/
def processBatch (st : RepositoryServiceState) (store : Storage) (ok : Bool) (now : Nat) :
    BatchStep :=
  if st.processing || st.batch.isEmpty then ⟨st, store, [], false⟩
  else
    let waitEvents :=
      if now - st.lastProcessTime < MIN_BATCH_INTERVAL then
        [WriterEvent.minIntervalWait (MIN_BATCH_INTERVAL - (now - st.lastProcessTime))]
      else []
    let currentBatch := st.batch.take BATCH_SIZE
    let rest := st.batch.drop BATCH_SIZE
    if ok then
      ⟨{ batch := rest
         processedRepos := st.processedRepos ++ currentBatch.map (fun r => r.full_name)
         processing := false
         lastProcessTime := now },
       commitBatch store currentBatch now, waitEvents, true⟩
    else
      ⟨{ batch := currentBatch ++ rest
         processedRepos := st.processedRepos
         processing := false
         lastProcessTime := st.lastProcessTime },
       store,
       waitEvents ++ [WriterEvent.errorBackoff (currentBatch ++ rest).length], true⟩

/-- `{...repo, ecosystem, category}` built by `queueRepository`. -/
def extendRepo (repo : GithubRepositoryStats) (ecosystem category : String) :
    ExtendedRepositoryStats :=
  { toGithubRepositoryStats := repo, ecosystem := ecosystem, category := category }

/-- `queueRepository(repo, ecosystem, category)` (lines 54-74): skip when the
name is already processed, otherwise push and, when the batch has reached
`BATCH_SIZE`, await `processBatch`. -/
def queueRepository (st : RepositoryServiceState) (store : Storage)
    (repo : GithubRepositoryStats) (ecosystem category : String) (ok : Bool) (now : Nat) :
    BatchStep :=
  if repo.full_name ∈ st.processedRepos then ⟨st, store, [], false⟩
  else
    let extendedRepo := extendRepo repo ecosystem category
    let st' := { st with batch := st.batch ++ [extendedRepo] }
    if BATCH_SIZE ≤ st'.batch.length then processBatch st' store ok now
    else ⟨st', store, [], false⟩

/-- `flush()` (lines 221-225). -/
def flush (st : RepositoryServiceState) (store : Storage) (ok : Bool) (now : Nat) : BatchStep :=
  if 0 < st.batch.length then processBatch st store ok now
  else ⟨st, store, [], false⟩

/-- Accumulator for a sequence of `queueRepository` calls: the writer state,
the store, and how many times an automatic `processBatch` actually ran. -/
structure EnqueueAcc where
  state : RepositoryServiceState
  store : Storage
  autoFlushes : Nat
deriving DecidableEq

/-- One `queueRepository` call inside a sequence, counting automatic
flush attempts. -/
def enqueueStep (eco cat : String) (ok : Bool) (now : Nat) (acc : EnqueueAcc)
    (repo : GithubRepositoryStats) : EnqueueAcc :=
  let r := queueRepository acc.state acc.store repo eco cat ok now
  ⟨r.state, r.store, acc.autoFlushes + (if r.attempted then 1 else 0)⟩

/-- A sequence of `queueRepository` calls, in order. -/
def enqueueAll (rs : List GithubRepositoryStats) (eco cat : String) (ok : Bool) (now : Nat)
    (st : RepositoryServiceState) (store : Storage) : EnqueueAcc :=
  rs.foldl (enqueueStep eco cat ok now) ⟨st, store, 0⟩

end RepositoryService

/-! ## GitHub fetch client (fetchRepository, parser.ts client part) -/

namespace GithubClient

def MAX_RETRIES : Nat := 3
def RETRY_DELAY : Nat := 5000

/-- The shape of an error thrown by an attempt of the wrapped operation:
the HTTP status, whether `error.response.data.message` mentions the rate
limit, and the parsed `retry-after` response header when present. -/
structure ApiError where
  status : Nat
  rateLimitMessage : Bool
  retryAfterHeader : Option Nat
deriving DecidableEq

/-- Outcome of one attempt of the operation passed to `retryWithBackoff`
(one full execution of the closure at lines 342-391, abstracting the
network). -/
inductive OpResult (α : Type) where
  | ok (value : α)
  | err (e : ApiError)
deriving DecidableEq

/-- What `retryWithBackoff` can throw. -/
inductive RetryError where
  | api (e : ApiError)
  | retryFailed
deriving DecidableEq

/-- Trace of a `retryWithBackoff` run: its result, the number of attempts
made, and the backoff delays slept between attempts. -/
structure RetryTrace (α : Type) where
  result : Except RetryError α
  attempts : Nat
  delays : List Nat

/-- The `for (let i = 0; i < retries; i++)` loop of `retryWithBackoff`
(lines 265-281): on failure at the last attempt the error is rethrown;
earlier failures sleep `RETRY_DELAY * 2^i` and continue.  `remaining` is
`retries - i`; exhausting it models the unreachable
`throw new Error('Retry failed')` after the loop. -/
def retryGo (op : Nat → OpResult α) : Nat → Nat → List Nat → RetryTrace α
  | 0, i, delays => ⟨Except.error RetryError.retryFailed, i, delays⟩
  | remaining + 1, i, delays =>
    match op i with
    | OpResult.ok v => ⟨Except.ok v, i + 1, delays⟩
    | OpResult.err e =>
      if remaining = 0 then ⟨Except.error (RetryError.api e), i + 1, delays⟩
      else retryGo op remaining (i + 1) (delays ++ [RETRY_DELAY * 2 ^ i])

/-- `retryWithBackoff(operation, retries)`. -/
def retryWithBackoff (op : Nat → OpResult α) (retries : Nat) : RetryTrace α :=
  retryGo op retries 0 []

/-- Errors surfaced by `fetchRepository` to its caller. -/
inductive FetchError where
  | github (message : String) (status : Nat)
  | rateLimit (message : String) (retryAfter : Nat)
deriving DecidableEq

/-- Result of a `fetchRepository` run on the cache-miss path: the value (or
`none` for "not found") or the surfaced error, together with the retry
loop's attempt count and backoff delays. -/
structure FetchRepoResult (α : Type) where
  result : Except FetchError (Option α)
  attempts : Nat
  backoffDelays : List Nat

/-- The try/catch around `retryWithBackoff` in `fetchRepository` (lines
341-409): a 404 escaping the retry loop becomes `null`; a 403 whose message
mentions the rate limit becomes a `RateLimitError` carrying the
`retry-after` hint (default 60); anything else becomes a `GitHubError` with
the error's status (500 when absent). -/
def fetchRepository (owner repo : String) (op : Nat → OpResult α) : FetchRepoResult α :=
  let t := retryWithBackoff op MAX_RETRIES
  match t.result with
  | Except.ok d => ⟨Except.ok (some d), t.attempts, t.delays⟩
  | Except.error (RetryError.api e) =>
    if e.status == 404 then ⟨Except.ok none, t.attempts, t.delays⟩
    else if e.status == 403 && e.rateLimitMessage then
      ⟨Except.error (FetchError.rateLimit ("Rate limit exceeded for " ++ owner ++ "/" ++ repo)
        (e.retryAfterHeader.getD 60)), t.attempts, t.delays⟩
    else
      ⟨Except.error (FetchError.github ("Error fetching " ++ owner ++ "/" ++ repo) e.status),
       t.attempts, t.delays⟩
  | Except.error RetryError.retryFailed =>
    ⟨Except.error (FetchError.github ("Error fetching " ++ owner ++ "/" ++ repo) 500),
     t.attempts, t.delays⟩

/-- An operation whose every attempt fails with a plain 404 (the external
API reports the repository as not found). -/
def allNotFound : Nat → OpResult Unit :=
  fun _ => OpResult.err ⟨404, false, none⟩

end GithubClient

/-! ## Concrete sample data used by the closed theorems -/

namespace Examples

open RepositoryService

/-- A concrete fetched record with the given id, full name, topics and
pushed_at. -/
def sampleRepo (i : Nat) (fullName : String) (topics : List String)
    (pushedAt : Option String) : GithubRepositoryStats :=
  { id := i
    name := fullName
    full_name := fullName
    description := none
    html_url := "https://github.com/x/y"
    homepage := none
    language := some "TypeScript"
    topics := topics
    stargazers_count := 2
    watchers_count := 2
    forks_count := 1
    fork := false
    owner := ⟨"https://github.com/x", "x"⟩
    created_at := "2020-01-01"
    updated_at := "2020-06-01"
    pushed_at := pushedAt
    license := none
    languages_url := "https://api.github.com/repos/x/y/languages"
    contributors_count := 3 }

/-- Empty database. -/
def emptyStorage : Storage := ⟨[], []⟩

/-- Writer state with one pending record while another flush is marked in
progress (`processing = true`). -/
def busyState : RepositoryServiceState :=
  ⟨[extendRepo (sampleRepo 1 "owner/repo" [] none) "eco" "cat"], [], true, 0⟩

/-- First record written for id 7: `pushed_at` of 2020, topic `t1`. -/
def firstWrite : ExtendedRepositoryStats :=
  extendRepo (sampleRepo 7 "owner/first" ["t1"] (some "2020-02-02")) "eco" "cat"

/-- A later record for the same id 7 with different scalar values and a
different topic set. -/
def secondWrite : ExtendedRepositoryStats :=
  extendRepo (sampleRepo 7 "owner/second" ["t2"] (some "2021-03-03")) "eco" "cat"

/-- 51 records with pairwise distinct names (and ids). -/
def manyRepos : List GithubRepositoryStats :=
  (List.range 51).map (fun i => sampleRepo i (String.mk (List.replicate (i + 1) 'a')) [] none)

/-- A two-request admission queue: request 1 enqueued before request 2. -/
def twoItemQueue : List RateLimiter.QueueItem :=
  [⟨1, "repoA", 0, 0, true⟩, ⟨2, "repoB", 0, 0, true⟩]

/-- A fresh rate-limiter state with the full 5000-token budget. -/
def freshState : RateLimiter.RateLimiterState :=
  ⟨5000, 3600000, 0, 0, 0, none, 0, 0⟩

/-- A one-request admission queue. -/
def oneItemQueue : List RateLimiter.QueueItem :=
  [⟨1, "repoA", 0, 0, true⟩]

/-- A 31-request admission queue, all enqueued at time 0 with their timers
armed: request 1 first, then 30 more behind it. -/
def lingerQueue : List RateLimiter.QueueItem :=
  (List.range 31).map (fun i => ⟨i + 1, "repo", 0, 0, true⟩)

/-- A concrete writer state with a single pending record and no flush in
progress. -/
def idleOneState : RepositoryServiceState :=
  ⟨[extendRepo (sampleRepo 9 "owner/nine" ["t9"] none) "eco" "cat"], [], false, 0⟩

end Examples

/-! # Theorems -/

namespace EcosystemParser

/-- The loop body of `parseEcosystemFile` factored as the claim reads it:
first the comment/blank skip, then the url extraction. -/
theorem parseLine_eq (line : String) :
    parseLine line = if isSkippedLine line then none else urlOfLine line := rfl

/-- C9: for every ecosystem source, `parseEcosystemFile` returns, in file
order, exactly the quoted values of the lines matching the `url = "<value>"`
pattern whose value contains the host marker `github.com`, skipping comment
and blank lines; a missing or unreadable source yields the empty sequence
rather than raising; and on the spec's two-line scenario exactly the one
uncommented URL is produced. -/
theorem parseEcosystemFile_url_extraction :
    (∀ lines, parseEcosystemFile (some lines) = specUrlExtraction lines) ∧
    parseEcosystemFile none = [] ∧
    parseEcosystemFile
        (some ["url = \"https://github.com/foo/bar\"",
               "# url = \"https://github.com/baz/qux\""]) =
      ["https://github.com/foo/bar"] := by
  refine ⟨?_, rfl, by decide⟩
  intro lines
  induction lines with
  | nil => rfl
  | cons l ls ih =>
    have hl := parseLine_eq l
    show (l :: ls).filterMap parseLine = specUrlExtraction (l :: ls)
    cases h : isSkippedLine l with
    | true =>
      rw [h, if_pos rfl] at hl
      simp only [parseEcosystemFile, parseEcosystemLines] at ih
      simp [List.filterMap_cons, hl, specUrlExtraction, List.filter_cons, h, ih]
    | false =>
      rw [h, if_neg (by simp)] at hl
      simp only [parseEcosystemFile, parseEcosystemLines] at ih
      simp only [List.filterMap_cons, hl, specUrlExtraction, List.filter_cons, h,
        Bool.not_false, if_pos]
      cases hu : urlOfLine l <;> simp [hu, ih, specUrlExtraction]

end EcosystemParser

namespace RateLimiter

/-- The adaptive delay never goes below `BASE_DELAY` (1000 ms): every branch
of `calculateDelay` only scales the base delay up. -/
theorem calculateDelay_ge (state : RateLimiterState) (now : Nat) :
    (1000 : Int) ≤ calculateDelay state now := by
  unfold calculateDelay
  refine le_trans ?_ (le_max_left _ _)
  dsimp only [BASE_DELAY, MAX_DELAY]
  split_ifs <;> decide

/-- The natural-number delay actually slept after an admission is at least
1000 ms. -/
theorem calculateDelay_toNat_ge (state : RateLimiterState) (now : Nat) :
    1000 ≤ (calculateDelay state now).toNat := by
  have h := calculateDelay_ge state now
  have := Int.toNat_le_toNat h
  simpa using this

/-- One item step of the drain loop: the clock never goes backwards, the
admission log keeps its 1000-ms gaps, and every logged admission stays at
least 1000 ms behind the clock. -/
theorem itemStep_log (ds : DrainState) (plan : List Bool)
    (hpair : (ds.admitted.map Prod.snd).Pairwise (fun a b => a + 1000 ≤ b))
    (hclock : ∀ t ∈ ds.admitted.map Prod.snd, t + 1000 ≤ ds.clock) :
    ds.clock ≤ (itemStep ds plan).1.clock ∧
    ((itemStep ds plan).1.admitted.map Prod.snd).Pairwise (fun a b => a + 1000 ≤ b) ∧
    ∀ t ∈ (itemStep ds plan).1.admitted.map Prod.snd, t + 1000 ≤ (itemStep ds plan).1.clock := by
  obtain ⟨queue, state, clock, admitted, rejected⟩ := ds
  cases queue with
  | nil => exact ⟨le_refl _, hpair, hclock⟩
  | cons item rest =>
    dsimp only [itemStep] at *
    by_cases hf : plan.headD false
    · rw [if_pos hf]
      by_cases hr : item.retryCount < MAX_RETRIES
      · rw [if_pos hr]
        refine ⟨Nat.le_add_right _ _, hpair, ?_⟩
        intro t ht
        exact le_trans (hclock t ht) (Nat.le_add_right _ _)
      · rw [if_neg hr]
        exact ⟨le_refl _, hpair, hclock⟩
    · rw [if_neg hf]
      dsimp only
      refine ⟨Nat.le_add_right _ _, ?_, ?_⟩
      · rw [List.map_append]
        rw [List.pairwise_append]
        refine ⟨hpair, List.pairwise_singleton _ _, ?_⟩
        intro a ha b hb
        simp only [List.map_cons, List.map_nil, List.mem_singleton] at hb
        subst hb
        exact hclock a ha
      · intro t ht
        rw [List.map_append] at ht
        rcases List.mem_append.mp ht with h1 | h1
        · exact le_trans (hclock t h1) (Nat.le_add_right _ _)
        · simp only [List.map_cons, List.map_nil, List.mem_singleton] at h1
          subst h1
          exact Nat.add_le_add_left (calculateDelay_toNat_ge _ _) _

/-- The burst loop preserves the admission-log invariant. -/
theorem burstLoop_log : ∀ (n : Nat) (ds : DrainState) (plan : List Bool),
    (ds.admitted.map Prod.snd).Pairwise (fun a b => a + 1000 ≤ b) →
    (∀ t ∈ ds.admitted.map Prod.snd, t + 1000 ≤ ds.clock) →
    ((burstLoop n ds plan).1.admitted.map Prod.snd).Pairwise (fun a b => a + 1000 ≤ b) ∧
    ∀ t ∈ (burstLoop n ds plan).1.admitted.map Prod.snd,
      t + 1000 ≤ (burstLoop n ds plan).1.clock := by
  intro n
  induction n with
  | zero => intro ds plan hp hc; exact ⟨hp, hc⟩
  | succ n ih =>
    intro ds plan hp hc
    have h := itemStep_log ds plan hp hc
    exact ih _ _ h.2.1 h.2.2

/-- The whole drain loop preserves the admission-log invariant. -/
theorem drain_log : ∀ (fuel : Nat) (ds : DrainState) (plan : List Bool),
    (ds.admitted.map Prod.snd).Pairwise (fun a b => a + 1000 ≤ b) →
    (∀ t ∈ ds.admitted.map Prod.snd, t + 1000 ≤ ds.clock) →
    ((drain fuel ds plan).admitted.map Prod.snd).Pairwise (fun a b => a + 1000 ≤ b) := by
  intro fuel
  induction fuel with
  | zero => intro ds plan hp _; exact hp
  | succ fuel ih =>
    intro ds plan hp hc
    unfold drain
    by_cases he : ds.queue.isEmpty
    · rw [if_pos he]; exact hp
    · rw [if_neg he]
      dsimp only
      by_cases hb :
          min BURST_SIZE (min ds.queue.length ((ds.state.tokens * BURST_SIZE + 99) / 100)) = 0
      · rw [if_pos hb]
        refine ih _ _ hp ?_
        intro t ht
        exact le_trans (hc t ht) (Nat.le_add_right _ _)
      · rw [if_neg hb]
        have h := burstLoop_log
          (min BURST_SIZE (min ds.queue.length ((ds.state.tokens * BURST_SIZE + 99) / 100)))
          ds plan hp hc
        by_cases he2 :
            (burstLoop
              (min BURST_SIZE (min ds.queue.length ((ds.state.tokens * BURST_SIZE + 99) / 100)))
              ds plan).1.queue.isEmpty
        · rw [if_pos he2]
          exact ih _ _ h.1 h.2
        · rw [if_neg he2]
          refine ih _ _ h.1 ?_
          intro t ht
          exact le_trans (h.2 t ht) (Nat.le_add_right _ _)

/-- A list of naturals whose consecutive members are at least 1000 apart and
which all lie in a window of width `W` has at most `W / 1000 + 1` members
(stated multiplied out to stay linear). -/
theorem pairwise_1000_window : ∀ (l : List Nat) (lo W : Nat),
    l.Pairwise (fun a b => a + 1000 ≤ b) →
    (∀ x ∈ l, lo ≤ x ∧ x < lo + W) → l.length * 1000 ≤ W + 1000 := by
  intro l
  induction l with
  | nil => intro lo W _ _; simp
  | cons h t ih =>
    intro lo W hp hin
    rw [List.pairwise_cons] at hp
    cases t with
    | nil => simp [Nat.le_add_left 1000 W]
    | cons b t2 =>
      have hbmem : b ∈ h :: b :: t2 := by simp
      have hblo : lo + 1000 ≤ b := by
        have h1 := (hin h (by simp)).1
        have h2 := hp.1 b (by simp)
        omega
      have hbW : b < lo + W := (hin b hbmem).2
      have hWd : 1000 ≤ W := by omega
      have hstep : ∀ x ∈ b :: t2, lo + 1000 ≤ x ∧ x < (lo + 1000) + (W - 1000) := by
        intro x hx
        have hx1 := hp.1 x hx
        have hx2 := (hin x (List.mem_cons_of_mem _ hx)).2
        have hx3 := (hin h (by simp)).1
        constructor
        · omega
        · omega
      have := ih (lo + 1000) (W - 1000) hp.2 hstep
      have hlen : (h :: b :: t2).length = (b :: t2).length + 1 := by simp
      rw [hlen]
      have : (b :: t2).length * 1000 ≤ (W - 1000) + 1000 := this
      omega

/-- C3: for every sequence of acquire calls (any initial queue, persisted
state, failure plan and fuel), the admissions granted by the drain loop
within any rolling one-hour window (3,600,000 ms) never number more than
`HOURLY_LIMIT` (4500): every admission is followed by an awaited delay of at
least `BASE_DELAY` (1000 ms), so a one-hour window can hold at most 3601
admissions. -/
theorem acquire_hourly_ceiling (fuel : Nat) (q : List QueueItem) (st : RateLimiterState)
    (c : Nat) (plan : List Bool) (lo : Nat) :
    (((drain fuel ⟨q, st, c, [], []⟩ plan).admitted.map Prod.snd).filter
      (fun x => decide (lo ≤ x) && decide (x < lo + 3600000))).length ≤ HOURLY_LIMIT := by
  have hpair := drain_log fuel ⟨q, st, c, [], []⟩ plan (by simp) (by simp)
  have hsub : (((drain fuel ⟨q, st, c, [], []⟩ plan).admitted.map Prod.snd).filter
      (fun x => decide (lo ≤ x) && decide (x < lo + 3600000))).Sublist
      ((drain fuel ⟨q, st, c, [], []⟩ plan).admitted.map Prod.snd) :=
    List.filter_sublist _
  have hpair2 := hpair.sublist hsub
  have hin : ∀ x ∈ ((drain fuel ⟨q, st, c, [], []⟩ plan).admitted.map Prod.snd).filter
      (fun x => decide (lo ≤ x) && decide (x < lo + 3600000)), lo ≤ x ∧ x < lo + 3600000 := by
    intro x hx
    have := (List.mem_filter.mp hx).2
    simp only [Bool.and_eq_true, decide_eq_true_eq] at this
    exact this
  have := pairwise_1000_window _ lo 3600000 hpair2 hin
  have hlim : HOURLY_LIMIT = 4500 := rfl
  omega

/-- `findIndex`/`splice` of `handleTimeout`: when the item is queued (and
queue identities are distinct), the splice succeeds, the result no longer
holds the item, and every remaining item was already queued. -/
theorem removeFirstTimedOut_spec (uid : Nat) :
    ∀ q : List QueueItem, uid ∈ q.map QueueItem.uid → (q.map QueueItem.uid).Nodup →
      ∃ q', removeFirstTimedOut uid q = some q' ∧
        (∀ item ∈ q', item.uid ≠ uid) ∧ ∀ item ∈ q', item ∈ q := by
  intro q
  induction q with
  | nil => intro h _; simp at h
  | cons a rest ih =>
    intro hmem hnodup
    rw [List.map_cons, List.nodup_cons] at hnodup
    by_cases ha : a.uid = uid
    · refine ⟨rest, ?_, ?_, ?_⟩
      · simp [removeFirstTimedOut, ha]
      · intro item hitem hbad
        apply hnodup.1
        rw [ha, ← hbad]
        exact List.mem_map_of_mem QueueItem.uid hitem
      · intro item hitem
        exact List.mem_cons_of_mem _ hitem
    · have hmem' : uid ∈ rest.map QueueItem.uid := by
        rw [List.map_cons] at hmem
        rcases List.mem_cons.mp hmem with h | h
        · exact absurd h.symm ha
        · exact h
      obtain ⟨q', hq', hne, hsub⟩ := ih hmem' hnodup.2
      have hbeq : (a.uid == uid) = false := by simpa using ha
      refine ⟨a :: q', ?_, ?_, ?_⟩
      · simp [removeFirstTimedOut, hbeq, hq']
      · intro item hitem
        rcases List.mem_cons.mp hitem with h | h
        · rw [h]; exact ha
        · exact hne item h
      · intro item hitem
        rcases List.mem_cons.mp hitem with h | h
        · rw [h]; exact List.mem_cons_self a rest
        · exact List.mem_cons_of_mem _ (hsub item h)

/-- One drain step only moves identities around: the queue after the step
holds only identities that were queued, and everything admitted was either
already admitted or queued. -/
theorem itemStep_uid_sources (ds : DrainState) (plan : List Bool) :
    (∀ u ∈ (itemStep ds plan).1.queue.map QueueItem.uid, u ∈ ds.queue.map QueueItem.uid) ∧
    ∀ u ∈ (itemStep ds plan).1.admitted.map Prod.fst,
      u ∈ ds.admitted.map Prod.fst ∨ u ∈ ds.queue.map QueueItem.uid := by
  obtain ⟨queue, state, clock, admitted, rejected⟩ := ds
  cases queue with
  | nil =>
    exact ⟨fun u hu => hu, fun u hu => Or.inl hu⟩
  | cons item rest =>
    dsimp only [itemStep]
    by_cases hf : plan.headD false
    · rw [if_pos hf]
      by_cases hr : item.retryCount < MAX_RETRIES
      · rw [if_pos hr]
        dsimp only
        constructor
        · intro u hu
          rw [List.map_append] at hu
          rcases List.mem_append.mp hu with h | h
          · exact List.mem_cons_of_mem _ h
          · simp only [List.map_cons, List.map_nil, List.mem_singleton] at h
            simp [h]
        · intro u hu
          exact Or.inl hu
      · rw [if_neg hr]
        exact ⟨fun u hu => List.mem_cons_of_mem _ hu, fun u hu => Or.inl hu⟩
    · rw [if_neg hf]
      dsimp only
      constructor
      · intro u hu
        exact List.mem_cons_of_mem _ hu
      · intro u hu
        rw [List.map_append] at hu
        rcases List.mem_append.mp hu with h | h
        · exact Or.inl h
        · simp only [List.map_cons, List.map_nil, List.mem_singleton] at h
          exact Or.inr (by simp [h])

/-- The burst loop only moves identities around. -/
theorem burstLoop_uid_sources : ∀ (n : Nat) (ds : DrainState) (plan : List Bool),
    (∀ u ∈ (burstLoop n ds plan).1.queue.map QueueItem.uid, u ∈ ds.queue.map QueueItem.uid) ∧
    ∀ u ∈ (burstLoop n ds plan).1.admitted.map Prod.fst,
      u ∈ ds.admitted.map Prod.fst ∨ u ∈ ds.queue.map QueueItem.uid := by
  intro n
  induction n with
  | zero => intro ds plan; exact ⟨fun u hu => hu, fun u hu => Or.inl hu⟩
  | succ n ih =>
    intro ds plan
    have h1 := itemStep_uid_sources ds plan
    have h2 := ih (itemStep ds plan).1 (itemStep ds plan).2
    constructor
    · intro u hu
      exact h1.1 u (h2.1 u hu)
    · intro u hu
      rcases h2.2 u hu with h | h
      · rcases h1.2 u h with h' | h'
        · exact Or.inl h'
        · exact Or.inr h'
      · exact Or.inr (h1.1 u h)

/-- The drain loop admits only identities that were queued (or already
logged as admitted) when it started. -/
theorem drain_uid_sources : ∀ (fuel : Nat) (ds : DrainState) (plan : List Bool),
    ∀ u ∈ (drain fuel ds plan).admitted.map Prod.fst,
      u ∈ ds.admitted.map Prod.fst ∨ u ∈ ds.queue.map QueueItem.uid := by
  intro fuel
  induction fuel with
  | zero => intro ds plan u hu; exact Or.inl hu
  | succ fuel ih =>
    intro ds plan u
    unfold drain
    by_cases he : ds.queue.isEmpty
    · rw [if_pos he]
      exact fun hu => Or.inl hu
    · rw [if_neg he]
      dsimp only
      by_cases hb :
          min BURST_SIZE (min ds.queue.length ((ds.state.tokens * BURST_SIZE + 99) / 100)) = 0
      · rw [if_pos hb]
        intro hu
        exact ih { ds with clock := ds.clock + MAX_DELAY } plan u hu
      · rw [if_neg hb]
        intro hu
        set n := min BURST_SIZE (min ds.queue.length ((ds.state.tokens * BURST_SIZE + 99) / 100))
        have hbl := burstLoop_uid_sources n ds plan
        by_cases he2 : (burstLoop n ds plan).1.queue.isEmpty
        · rw [if_pos he2] at hu
          rcases ih _ _ u hu with h | h
          · rcases hbl.2 u h with h' | h'
            · exact Or.inl h'
            · exact Or.inr h'
          · exact Or.inr (hbl.1 u h)
        · rw [if_neg he2] at hu
          rcases ih _ _ u hu with h | h
          · rcases hbl.2 u h with h' | h'
            · exact Or.inl h'
            · exact Or.inr h'
          · exact Or.inr (hbl.1 u h)

/-- C5 counterexample: request 1 is enqueued at time 0 with a 30-second
timeout and 30 requests behind it; a single injected `saveState` failure
makes its first admission attempt fail, and — its timer having been cleared
at the start of that attempt — it is re-queued at the tail with no timer.
The drain then admits it only at 38600 ms, past the 30000 ms timeout
window, without ever rejecting it: a request not granted within the timeout
window need not reject with a timeout error, need not leave the queue, and
can be admitted afterwards. -/
theorem timeout_linger_counterexample :
    (burstLoop 1 ⟨Examples.lingerQueue, Examples.freshState, 0, [], []⟩
        [true]).1.queue.getLast?.map (fun i => (i.uid, i.hasTimer, i.queuedAt)) =
      some (1, false, 0) ∧
    (drain 10 ⟨Examples.lingerQueue, Examples.freshState, 0, [], []⟩ [true]).admitted.filter
      (fun p => p.1 == 1) = [(1, 38600)] ∧
    (drain 10 ⟨Examples.lingerQueue, Examples.freshState, 0, [], []⟩ [true]).rejected = [] ∧
    0 + REQUEST_TIMEOUT < 38600 :=
  ⟨by decide, by decide, by decide, by decide⟩

/-- C5 amended: the timeout rejection happens exactly when the request's
30-second timer fires while the request is still queued — which requires
the timer to still be armed, i.e. the request has not yet entered an
admission attempt (entering one clears the timer before anything fallible
runs, and a failed attempt re-queues the request with no timer, so such a
request can linger ungranted past the window and be admitted later).  When
the armed timer does fire on a queued request, `handleTimeout` rejects its
promise with `RateLimitError('Request timed out', 408)`, persists the
failed-promise counter incremented, removes the request from the queue at
that moment, and no subsequent run of the drain loop ever admits it. -/
theorem timeout_removes_and_rejects (q : List QueueItem) (st : RateLimiterState)
    (item : QueueItem) (hitem : item ∈ q) (_harmed : item.hasTimer = true)
    (hnodup : (q.map QueueItem.uid).Nodup) :
    (handleTimeout q st item.uid).rejectedWith =
      some (mkRateLimitError "Request timed out" (some 408)) ∧
    (handleTimeout q st item.uid).state.failedPromisesCount = st.failedPromisesCount + 1 ∧
    (∀ x ∈ (handleTimeout q st item.uid).queue, x.uid ≠ item.uid) ∧
    ∀ fuel clock plan,
      item.uid ∉ (drain fuel ⟨(handleTimeout q st item.uid).queue,
        (handleTimeout q st item.uid).state, clock, [], []⟩ plan).admitted.map Prod.fst := by
  have hmem : item.uid ∈ q.map QueueItem.uid := List.mem_map_of_mem QueueItem.uid hitem
  obtain ⟨q', hq', hne, _⟩ := removeFirstTimedOut_spec item.uid q hmem hnodup
  have hH : handleTimeout q st item.uid =
      ⟨q', { st with failedPromisesCount := st.failedPromisesCount + 1 },
       some (mkRateLimitError "Request timed out" (some 408))⟩ := by
    simp only [handleTimeout, hq']
  rw [hH]
  refine ⟨rfl, rfl, hne, ?_⟩
  intro fuel clock plan hin
  rcases drain_uid_sources fuel _ plan item.uid hin with h | h
  · simp at h
  · dsimp only at h
    rcases List.mem_map.mp h with ⟨x, hx, hu⟩
    exact hne x hx hu

/-- Witness for the amended C5: a concrete single-request queue whose
armed timer fires. -/
theorem timeout_removes_and_rejects_witness :
    (handleTimeout Examples.oneItemQueue Examples.freshState
      (⟨1, "repoA", 0, 0, true⟩ : QueueItem).uid).rejectedWith =
      some (mkRateLimitError "Request timed out" (some 408)) ∧
    (handleTimeout Examples.oneItemQueue Examples.freshState
      (⟨1, "repoA", 0, 0, true⟩ : QueueItem).uid).state.failedPromisesCount =
      Examples.freshState.failedPromisesCount + 1 ∧
    (∀ x ∈ (handleTimeout Examples.oneItemQueue Examples.freshState
      (⟨1, "repoA", 0, 0, true⟩ : QueueItem).uid).queue,
      x.uid ≠ (⟨1, "repoA", 0, 0, true⟩ : QueueItem).uid) ∧
    ∀ fuel clock plan,
      (⟨1, "repoA", 0, 0, true⟩ : QueueItem).uid ∉
        (drain fuel ⟨(handleTimeout Examples.oneItemQueue Examples.freshState
          (⟨1, "repoA", 0, 0, true⟩ : QueueItem).uid).queue,
          (handleTimeout Examples.oneItemQueue Examples.freshState
            (⟨1, "repoA", 0, 0, true⟩ : QueueItem).uid).state,
          clock, [], []⟩ plan).admitted.map Prod.fst :=
  timeout_removes_and_rejects Examples.oneItemQueue Examples.freshState
    ⟨1, "repoA", 0, 0, true⟩ (by decide) rfl (by decide)

/-- C6 counterexample: requests 1 and 2 are enqueued in this order; a single
injected `saveState` failure while admitting request 1 makes the drain loop
push request 1 back onto the queue tail, so request 2 is admitted at
5000 ms and request 1 only at 6100 ms — both are eventually admitted, but
the earlier-enqueued request is admitted strictly later. -/
theorem fifo_counterexample :
    (drain 10 ⟨Examples.twoItemQueue, Examples.freshState, 0, [], []⟩ [true]).admitted =
      [(2, 5000), (1, 6100)] ∧
    Examples.twoItemQueue.map QueueItem.uid = [1, 2] ∧ (5000 : Nat) < 6100 :=
  ⟨by decide, by decide, by decide⟩

/-- With no failure injected, one drain step conserves the identity sequence
`admitted ++ queue`. -/
theorem itemStep_conserves (ds : DrainState) :
    (itemStep ds []).1.admitted.map Prod.fst ++ (itemStep ds []).1.queue.map QueueItem.uid =
      ds.admitted.map Prod.fst ++ ds.queue.map QueueItem.uid ∧
    (itemStep ds []).2 = [] := by
  obtain ⟨queue, state, clock, admitted, rejected⟩ := ds
  cases queue with
  | nil => exact ⟨rfl, rfl⟩
  | cons item rest =>
    dsimp only [itemStep]
    rw [if_neg (by simp)]
    dsimp only
    constructor
    · rw [List.map_append]
      simp
    · rfl

/-- With no failure injected, the burst loop conserves the identity
sequence. -/
theorem burstLoop_conserves : ∀ (n : Nat) (ds : DrainState),
    (burstLoop n ds []).1.admitted.map Prod.fst ++
        (burstLoop n ds []).1.queue.map QueueItem.uid =
      ds.admitted.map Prod.fst ++ ds.queue.map QueueItem.uid ∧
    (burstLoop n ds []).2 = [] := by
  intro n
  induction n with
  | zero => intro ds; exact ⟨rfl, rfl⟩
  | succ n ih =>
    intro ds
    have h := itemStep_conserves ds
    have := ih (itemStep ds []).1
    constructor
    · calc (burstLoop (n + 1) ds []).1.admitted.map Prod.fst ++
            (burstLoop (n + 1) ds []).1.queue.map QueueItem.uid
          = (burstLoop n (itemStep ds []).1 []).1.admitted.map Prod.fst ++
            (burstLoop n (itemStep ds []).1 []).1.queue.map QueueItem.uid := by
            show (burstLoop n (itemStep ds []).1 (itemStep ds []).2).1.admitted.map Prod.fst ++
              (burstLoop n (itemStep ds []).1 (itemStep ds []).2).1.queue.map QueueItem.uid = _
            rw [h.2]
      _ = (itemStep ds []).1.admitted.map Prod.fst ++
            (itemStep ds []).1.queue.map QueueItem.uid := this.1
      _ = ds.admitted.map Prod.fst ++ ds.queue.map QueueItem.uid := h.1
    · show (burstLoop n (itemStep ds []).1 (itemStep ds []).2).2 = []
      rw [h.2]
      exact this.2

/-- With no failure injected, the drain loop conserves the identity
sequence `admitted ++ queue`. -/
theorem drain_conserves : ∀ (fuel : Nat) (ds : DrainState),
    (drain fuel ds []).admitted.map Prod.fst ++ (drain fuel ds []).queue.map QueueItem.uid =
      ds.admitted.map Prod.fst ++ ds.queue.map QueueItem.uid := by
  intro fuel
  induction fuel with
  | zero => intro ds; rfl
  | succ fuel ih =>
    intro ds
    unfold drain
    by_cases he : ds.queue.isEmpty
    · rw [if_pos he]
    · rw [if_neg he]
      dsimp only
      by_cases hb :
          min BURST_SIZE (min ds.queue.length ((ds.state.tokens * BURST_SIZE + 99) / 100)) = 0
      · rw [if_pos hb]
        exact ih _
      · rw [if_neg hb]
        set n := min BURST_SIZE (min ds.queue.length ((ds.state.tokens * BURST_SIZE + 99) / 100))
        have h := burstLoop_conserves n ds
        rw [h.2]
        by_cases he2 : (burstLoop n ds []).1.queue.isEmpty
        · rw [if_pos he2]
          rw [ih _]
          exact h.1
        · rw [if_neg he2]
          rw [ih _]
          exact h.1

/-- C6 amended: in executions of the drain loop where no admission step
fails (so no request is retried onto the queue tail), admission order is
exactly enqueue order — the admission log's identity sequence is a prefix of
the queue's identity sequence, hence a request enqueued earlier is admitted
no later than one enqueued after it. -/
theorem fifo_without_admission_errors (fuel : Nat) (q : List QueueItem)
    (st : RateLimiterState) (c : Nat) :
    (drain fuel ⟨q, st, c, [], []⟩ []).admitted.map Prod.fst <+: q.map QueueItem.uid := by
  have h := drain_conserves fuel ⟨q, st, c, [], []⟩
  exact ⟨(drain fuel ⟨q, st, c, [], []⟩ []).queue.map QueueItem.uid, by simpa using h⟩

end RateLimiter

namespace RepositoryService

/-- The conflict update never touches the key column. -/
theorem applyConflictUpdate_id (old excluded : RepoRow) (now : Nat) :
    (applyConflictUpdate old excluded now).id = old.id := rfl

/-- The parameter row carries the record's id. -/
theorem rowOfRepo_id (repo : ExtendedRepositoryStats) : (rowOfRepo repo).id = repo.id := rfl

/-- `extendRepo` keeps the record's full name. -/
theorem extendRepo_full_name (r : GithubRepositoryStats) (eco cat : String) :
    (extendRepo r eco cat).full_name = r.full_name := rfl

/-- `extendRepo` keeps the record's id. -/
theorem extendRepo_id (r : GithubRepositoryStats) (eco cat : String) :
    (extendRepo r eco cat).id = r.id := rfl

/-- After one upsert, a row with the upserted id is present. -/
theorem upsertRow_mem_self (rows : List RepoRow) (r : RepoRow) (now : Nat) :
    ∃ row ∈ upsertRow rows r now, row.id = r.id := by
  unfold upsertRow
  by_cases h : rows.any (fun row => row.id == r.id)
  · rw [if_pos h]
    obtain ⟨x, hx, hbe⟩ := List.any_eq_true.mp h
    have hxid : x.id = r.id := by simpa using hbe
    refine ⟨applyConflictUpdate x r now, ?_, by rw [applyConflictUpdate_id, hxid]⟩
    have hxim : (if x.id == r.id then applyConflictUpdate x r now else x) =
        applyConflictUpdate x r now := by simp [hxid]
    rw [← hxim]
    exact List.mem_map_of_mem _ hx
  · rw [if_neg h]
    exact ⟨r, by simp, rfl⟩

/-- An upsert preserves the presence of every id. -/
theorem upsertRow_mem_of_mem (rows : List RepoRow) (r : RepoRow) (now : Nat) (i : Nat)
    (h : ∃ row ∈ rows, row.id = i) : ∃ row ∈ upsertRow rows r now, row.id = i := by
  obtain ⟨x, hx, hxid⟩ := h
  unfold upsertRow
  by_cases hany : rows.any (fun row => row.id == r.id)
  · rw [if_pos hany]
    by_cases hxr : x.id = r.id
    · refine ⟨applyConflictUpdate x r now, ?_, by rw [applyConflictUpdate_id, hxid]⟩
      have hxim : (if x.id == r.id then applyConflictUpdate x r now else x) =
          applyConflictUpdate x r now := by simp [hxr]
      rw [← hxim]
      exact List.mem_map_of_mem _ hx
    · refine ⟨x, ?_, hxid⟩
      have hxim : (if x.id == r.id then applyConflictUpdate x r now else x) = x := by
        simp [hxr]
      rw [← hxim]
      exact List.mem_map_of_mem _ hx
  · rw [if_neg hany]
    exact ⟨x, List.mem_append_left _ hx, hxid⟩

/-- The bulk upsert fold preserves the presence of every id. -/
theorem upsertFold_mem_of_mem (now : Nat) :
    ∀ (batch : List ExtendedRepositoryStats) (rows : List RepoRow) (i : Nat),
      (∃ row ∈ rows, row.id = i) →
      ∃ row ∈ batch.foldl (fun rs rp => upsertRow rs (rowOfRepo rp) now) rows, row.id = i := by
  intro batch
  induction batch with
  | nil => intro rows i h; exact h
  | cons c cs ih =>
    intro rows i h
    rw [List.foldl_cons]
    exact ih _ i (upsertRow_mem_of_mem rows (rowOfRepo c) now i h)

/-- After the bulk upsert fold, every batched id is present. -/
theorem upsertFold_mem_self (now : Nat) :
    ∀ (batch : List ExtendedRepositoryStats) (rows : List RepoRow)
      (r : ExtendedRepositoryStats), r ∈ batch →
      ∃ row ∈ batch.foldl (fun rs rp => upsertRow rs (rowOfRepo rp) now) rows, row.id = r.id := by
  intro batch
  induction batch with
  | nil => intro rows r h; simp at h
  | cons c cs ih =>
    intro rows r h
    rw [List.foldl_cons]
    rcases List.mem_cons.mp h with h | h
    · subst h
      refine upsertFold_mem_of_mem now cs _ r.id ?_
      have := upsertRow_mem_self rows (rowOfRepo r) now
      rw [rowOfRepo_id] at this
      exact this
    · exact ih _ r h

/-- Every record of a committed batch has a row with its id in storage. -/
theorem commitBatch_mem (store : Storage) (batch : List ExtendedRepositoryStats) (now : Nat)
    (r : ExtendedRepositoryStats) (h : r ∈ batch) :
    ∃ row ∈ (commitBatch store batch now).repositories, row.id = r.id :=
  upsertFold_mem_self now batch store.repositories r h

/-- Committing a batch preserves the presence of every id already stored. -/
theorem commitBatch_mem_of_mem (store : Storage) (batch : List ExtendedRepositoryStats)
    (now : Nat) (i : Nat) (h : ∃ row ∈ store.repositories, row.id = i) :
    ∃ row ∈ (commitBatch store batch now).repositories, row.id = i :=
  upsertFold_mem_of_mem now batch store.repositories i h

/-- `processBatch` on a success: the first `BATCH_SIZE` records are spliced
off, committed, and their names recorded. -/
theorem processBatch_success (st : RepositoryServiceState) (store : Storage) (now : Nat)
    (hproc : st.processing = false) (hne : st.batch ≠ []) :
    processBatch st store true now =
      ⟨⟨st.batch.drop BATCH_SIZE,
        st.processedRepos ++ (st.batch.take BATCH_SIZE).map (fun r => r.full_name),
        false, now⟩,
       commitBatch store (st.batch.take BATCH_SIZE) now,
       (if now - st.lastProcessTime < MIN_BATCH_INTERVAL then
          [WriterEvent.minIntervalWait (MIN_BATCH_INTERVAL - (now - st.lastProcessTime))]
        else []), true⟩ := by
  unfold processBatch
  rw [if_neg (by simp [hproc, List.isEmpty_iff, hne])]
  rfl

/-- `processBatch` on a failure: rollback, `unshift` of the snapshot, and
the error backoff. -/
theorem processBatch_failure (st : RepositoryServiceState) (store : Storage) (now : Nat)
    (hproc : st.processing = false) (hne : st.batch ≠ []) :
    processBatch st store false now =
      ⟨⟨st.batch.take BATCH_SIZE ++ st.batch.drop BATCH_SIZE, st.processedRepos, false,
        st.lastProcessTime⟩, store,
       (if now - st.lastProcessTime < MIN_BATCH_INTERVAL then
          [WriterEvent.minIntervalWait (MIN_BATCH_INTERVAL - (now - st.lastProcessTime))]
        else []) ++
        [WriterEvent.errorBackoff (st.batch.take BATCH_SIZE ++ st.batch.drop BATCH_SIZE).length],
       true⟩ := by
  unfold processBatch
  rw [if_neg (by simp [hproc, List.isEmpty_iff, hne])]
  rfl

/-- C2: when the batch transaction fails, `processBatch` leaves storage
exactly as it was (the rollback makes no record of the batch visible — the
writer never partially commits), restores the spliced snapshot to the front
of the pending batch so the batch is exactly what it was before the call, in
its original order (at-least-once, nothing lost), leaves `processedRepos`
untouched, and awaits the exponential backlog-sized backoff delay as the
last thing before its promise resolves. -/
theorem processBatch_failure_atomic (st : RepositoryServiceState) (store : Storage) (now : Nat)
    (hproc : st.processing = false) (hne : st.batch ≠ []) :
    (processBatch st store false now).store = store ∧
    (processBatch st store false now).state.batch = st.batch ∧
    (processBatch st store false now).state.processedRepos = st.processedRepos ∧
    (processBatch st store false now).events.getLast? =
      some (WriterEvent.errorBackoff st.batch.length) ∧
    (processBatch st store false now).attempted = true := by
  rw [processBatch_failure st store now hproc hne]
  refine ⟨rfl, List.take_append_drop _ _, rfl, ?_, rfl⟩
  rw [List.getLast?_concat, List.take_append_drop]

/-- Witness for C2: a failing flush of a one-record batch. -/
theorem processBatch_failure_atomic_witness :
    (processBatch Examples.idleOneState Examples.emptyStorage false 0).store =
      Examples.emptyStorage ∧
    (processBatch Examples.idleOneState Examples.emptyStorage false 0).state.batch =
      Examples.idleOneState.batch ∧
    (processBatch Examples.idleOneState Examples.emptyStorage false 0).state.processedRepos =
      Examples.idleOneState.processedRepos ∧
    (processBatch Examples.idleOneState Examples.emptyStorage false 0).events.getLast? =
      some (WriterEvent.errorBackoff Examples.idleOneState.batch.length) ∧
    (processBatch Examples.idleOneState Examples.emptyStorage false 0).attempted = true :=
  processBatch_failure_atomic Examples.idleOneState Examples.emptyStorage 0 rfl (by decide)

/-- C1 counterexample: with a flush already in progress (`processing` true)
and one record pending, `flush` resolves at once without writing anything
and without emptying the batch — the pending record is neither committed nor
removed, so flush is not a synchronization barrier while another flush is in
flight. -/
theorem flush_inflight_counterexample :
    (flush Examples.busyState Examples.emptyStorage true 0).state.batch =
      Examples.busyState.batch ∧
    Examples.busyState.batch ≠ [] ∧
    (flush Examples.busyState Examples.emptyStorage true 0).store.repositories = [] :=
  ⟨by decide, by decide, by decide⟩

/-- C1 amended: when no flush is already in progress and the batch holds at
most `BATCH_SIZE` (50) records with a succeeding transaction, `flush`
commits every pending record (a row with each record's id is stored and each
name enters `processedRepos`) and empties the batch; when a flush is already
in progress the call is a no-op that leaves the batch untouched, and with
more than 50 pending records only the first 50 are processed before the
promise resolves. -/
theorem flush_idle_commits (st : RepositoryServiceState) (store : Storage) (now : Nat)
    (hproc : st.processing = false) (hlen : st.batch.length ≤ BATCH_SIZE) :
    (flush st store true now).state.batch = [] ∧
    (∀ repo ∈ st.batch,
      ∃ row ∈ (flush st store true now).store.repositories, row.id = repo.id) ∧
    ∀ repo ∈ st.batch, repo.full_name ∈ (flush st store true now).state.processedRepos := by
  by_cases hb : st.batch = []
  · unfold flush
    rw [if_neg (by simp [hb])]
    refine ⟨hb, ?_, ?_⟩ <;> intro repo hr <;> rw [hb] at hr <;> simp at hr
  · have h0 : 0 < st.batch.length := List.length_pos.mpr hb
    have htake : st.batch.take BATCH_SIZE = st.batch := List.take_of_length_le hlen
    have hdrop : st.batch.drop BATCH_SIZE = [] := List.drop_eq_nil_of_le hlen
    have hflush : flush st store true now = processBatch st store true now := by
      unfold flush
      rw [if_pos h0]
    rw [hflush, processBatch_success st store now hproc hb, htake, hdrop]
    refine ⟨rfl, ?_, ?_⟩
    · intro repo hr
      exact commitBatch_mem store st.batch now repo hr
    · intro repo hr
      exact List.mem_append_right _ (List.mem_map_of_mem _ hr)

/-- Witness for the amended C1: flushing a concrete one-record batch with no
flush in progress. -/
theorem flush_idle_commits_witness :
    (flush Examples.idleOneState Examples.emptyStorage true 0).state.batch = [] ∧
    (∀ repo ∈ Examples.idleOneState.batch,
      ∃ row ∈ (flush Examples.idleOneState Examples.emptyStorage true 0).store.repositories,
        row.id = repo.id) ∧
    ∀ repo ∈ Examples.idleOneState.batch,
      repo.full_name ∈
        (flush Examples.idleOneState Examples.emptyStorage true 0).state.processedRepos :=
  flush_idle_commits Examples.idleOneState Examples.emptyStorage 0 rfl (by decide)

/-- `queueRepository` for an already-processed name: plain skip. -/
theorem queueRepository_skip (st : RepositoryServiceState) (store : Storage)
    (repo : GithubRepositoryStats) (eco cat : String) (ok : Bool) (now : Nat)
    (h : repo.full_name ∈ st.processedRepos) :
    queueRepository st store repo eco cat ok now = ⟨st, store, [], false⟩ := by
  unfold queueRepository
  rw [if_pos h]

/-- `queueRepository` below the flush threshold: push only. -/
theorem queueRepository_push (st : RepositoryServiceState) (store : Storage)
    (repo : GithubRepositoryStats) (eco cat : String) (ok : Bool) (now : Nat)
    (h : repo.full_name ∉ st.processedRepos)
    (hlen : st.batch.length + 1 < BATCH_SIZE) :
    queueRepository st store repo eco cat ok now =
      ⟨{ st with batch := st.batch ++ [extendRepo repo eco cat] }, store, [], false⟩ := by
  unfold queueRepository
  rw [if_neg h]
  dsimp only
  rw [if_neg (by
    simp only [List.length_append, List.length_cons, List.length_nil, BATCH_SIZE]
    simp only [BATCH_SIZE] at hlen
    omega)]

/-- `queueRepository` reaching the flush threshold triggers `processBatch`
on the pushed batch. -/
theorem queueRepository_trigger (st : RepositoryServiceState) (store : Storage)
    (repo : GithubRepositoryStats) (eco cat : String) (ok : Bool) (now : Nat)
    (h : repo.full_name ∉ st.processedRepos)
    (hlen : BATCH_SIZE ≤ st.batch.length + 1) :
    queueRepository st store repo eco cat ok now =
      processBatch { st with batch := st.batch ++ [extendRepo repo eco cat] } store ok now := by
  unfold queueRepository
  rw [if_neg h]
  dsimp only
  rw [if_pos (by
    simp only [List.length_append, List.length_cons, List.length_nil, BATCH_SIZE]
    simp only [BATCH_SIZE] at hlen
    omega)]

/-- C10: `queueRepository` never adds a record's identifier to
`processedRepos` at enqueue time — after any call `processedRepos` is either
unchanged or extended exactly by the names of the batch whose transaction
just committed.  Consequently, below the flush threshold, two
`queueRepository` calls for the same unprocessed record leave
`processedRepos` untouched and place two entries for that record in the
pending batch. -/
theorem queueRepository_no_premature_processed
    (st : RepositoryServiceState) (store : Storage) (repo : GithubRepositoryStats)
    (eco cat : String) (ok : Bool) (now : Nat)
    (hfresh : repo.full_name ∉ st.processedRepos)
    (hlen : st.batch.length + 2 < BATCH_SIZE) :
    (∀ (st' : RepositoryServiceState) (store' : Storage) (r' : GithubRepositoryStats)
        (e' c' : String) (ok' : Bool) (n' : Nat),
      (queueRepository st' store' r' e' c' ok' n').state.processedRepos = st'.processedRepos ∨
      (queueRepository st' store' r' e' c' ok' n').state.processedRepos =
        st'.processedRepos ++
          ((st'.batch ++ [extendRepo r' e' c']).take BATCH_SIZE).map (fun x => x.full_name)) ∧
    (queueRepository st store repo eco cat ok now).state.processedRepos = st.processedRepos ∧
    (queueRepository (queueRepository st store repo eco cat ok now).state
        (queueRepository st store repo eco cat ok now).store repo eco cat ok now).state.batch =
      st.batch ++ [extendRepo repo eco cat, extendRepo repo eco cat] ∧
    (queueRepository (queueRepository st store repo eco cat ok now).state
        (queueRepository st store repo eco cat ok now).store repo eco cat
        ok now).state.processedRepos = st.processedRepos := by
  have hlen50 : st.batch.length + 2 < 50 := hlen
  have h1 := queueRepository_push st store repo eco cat ok now hfresh
    (by simp only [BATCH_SIZE]; omega)
  have hfresh2 : repo.full_name ∉
      ({ st with batch := st.batch ++ [extendRepo repo eco cat] } :
        RepositoryServiceState).processedRepos := hfresh
  have h2 := queueRepository_push { st with batch := st.batch ++ [extendRepo repo eco cat] }
    store repo eco cat ok now hfresh2
    (by simp only [List.length_append, List.length_cons, List.length_nil, BATCH_SIZE]; omega)
  refine ⟨?_, ?_, ?_, ?_⟩
  · intro st' store' r' e' c' ok' n'
    unfold queueRepository
    by_cases hm : r'.full_name ∈ st'.processedRepos
    · rw [if_pos hm]
      exact Or.inl rfl
    · rw [if_neg hm]
      dsimp only
      by_cases ht : BATCH_SIZE ≤
          ({ st' with batch := st'.batch ++ [extendRepo r' e' c'] } :
            RepositoryServiceState).batch.length
      · rw [if_pos ht]
        unfold processBatch
        by_cases hg : (({ st' with batch := st'.batch ++ [extendRepo r' e' c'] } :
            RepositoryServiceState).processing ||
            ({ st' with batch := st'.batch ++ [extendRepo r' e' c'] } :
              RepositoryServiceState).batch.isEmpty) = true
        · rw [if_pos hg]
          exact Or.inl rfl
        · rw [if_neg hg]
          cases ok' with
          | true => exact Or.inr rfl
          | false => exact Or.inl rfl
      · rw [if_neg ht]
        exact Or.inl rfl
  · rw [h1]
  · rw [h1]
    dsimp only
    rw [h2]
    dsimp only
    rw [List.append_assoc]
    rfl
  · rw [h1]
    dsimp only
    rw [h2]

/-- Witness for C10: enqueueing one concrete unprocessed record twice into
an empty batch. -/
theorem queueRepository_no_premature_processed_witness :
    (∀ (st' : RepositoryServiceState) (store' : Storage) (r' : GithubRepositoryStats)
        (e' c' : String) (ok' : Bool) (n' : Nat),
      (queueRepository st' store' r' e' c' ok' n').state.processedRepos = st'.processedRepos ∨
      (queueRepository st' store' r' e' c' ok' n').state.processedRepos =
        st'.processedRepos ++
          ((st'.batch ++ [extendRepo r' e' c']).take BATCH_SIZE).map (fun x => x.full_name)) ∧
    (queueRepository ⟨[], [], false, 0⟩ Examples.emptyStorage
      (Examples.sampleRepo 3 "owner/three" [] none) "eco" "cat" true 0).state.processedRepos =
      ([] : List String) ∧
    (queueRepository
        (queueRepository ⟨[], [], false, 0⟩ Examples.emptyStorage
          (Examples.sampleRepo 3 "owner/three" [] none) "eco" "cat" true 0).state
        (queueRepository ⟨[], [], false, 0⟩ Examples.emptyStorage
          (Examples.sampleRepo 3 "owner/three" [] none) "eco" "cat" true 0).store
        (Examples.sampleRepo 3 "owner/three" [] none) "eco" "cat" true 0).state.batch =
      [] ++ [extendRepo (Examples.sampleRepo 3 "owner/three" [] none) "eco" "cat",
        extendRepo (Examples.sampleRepo 3 "owner/three" [] none) "eco" "cat"] ∧
    (queueRepository
        (queueRepository ⟨[], [], false, 0⟩ Examples.emptyStorage
          (Examples.sampleRepo 3 "owner/three" [] none) "eco" "cat" true 0).state
        (queueRepository ⟨[], [], false, 0⟩ Examples.emptyStorage
          (Examples.sampleRepo 3 "owner/three" [] none) "eco" "cat" true 0).store
        (Examples.sampleRepo 3 "owner/three" [] none) "eco" "cat" true
        0).state.processedRepos = ([] : List String) :=
  queueRepository_no_premature_processed ⟨[], [], false, 0⟩ Examples.emptyStorage
    (Examples.sampleRepo 3 "owner/three" [] none) "eco" "cat" true 0 (by decide) (by decide)

/-- A run of below-threshold `queueRepository` calls only appends to the
batch: no flush is attempted and neither `processedRepos` nor the store
changes. -/
theorem enqueue_fold_no_flush (eco cat : String) (ok : Bool) (now : Nat) :
    ∀ (rs : List GithubRepositoryStats) (st : RepositoryServiceState) (store : Storage) (n : Nat),
      (∀ r ∈ rs, r.full_name ∉ st.processedRepos) →
      st.batch.length + rs.length < BATCH_SIZE →
      rs.foldl (enqueueStep eco cat ok now) ⟨st, store, n⟩ =
        ⟨{ st with batch := st.batch ++ rs.map (fun r => extendRepo r eco cat) }, store, n⟩ := by
  intro rs
  induction rs with
  | nil =>
    intro st store n _ _
    simp
  | cons r rs ih =>
    intro st store n hfresh hlen
    rw [List.foldl_cons]
    have hr : r.full_name ∉ st.processedRepos := hfresh r (List.mem_cons_self r rs)
    have hlen1 : st.batch.length + 1 < BATCH_SIZE := by
      simp only [List.length_cons, BATCH_SIZE] at hlen ⊢
      omega
    have hstep : enqueueStep eco cat ok now ⟨st, store, n⟩ r =
        ⟨{ st with batch := st.batch ++ [extendRepo r eco cat] }, store, n⟩ := by
      unfold enqueueStep
      rw [queueRepository_push st store r eco cat ok now hr hlen1]
      rfl
    rw [hstep]
    have hih := ih { st with batch := st.batch ++ [extendRepo r eco cat] } store n
      (fun x hx => hfresh x (List.mem_cons_of_mem r hx))
      (by
        show (st.batch ++ [extendRepo r eco cat]).length + rs.length < BATCH_SIZE
        simp only [List.length_append, List.length_cons, List.length_nil, BATCH_SIZE] at hlen ⊢
        omega)
    rw [hih]
    simp [List.append_assoc]

/-- C8: starting from an empty pending batch with none of 51 distinct
records' names in `processedRepos`, enqueueing the 51 records in order
triggers exactly one automatic flush, occurring at the 50th enqueue (no
flush through the 49th enqueue, exactly one once the 50th is enqueued),
after which exactly the 51st record remains pending; a subsequent explicit
`flush()` empties the batch and persists all 51 records — storage holds a
row per id and every name is in `processedRepos`. -/
theorem enqueue_51_single_autoflush
    (rs : List GithubRepositoryStats) (eco cat : String) (ps : List String)
    (lt now now2 : Nat) (store0 : Storage) (st0 : RepositoryServiceState)
    (hst0 : st0 = ⟨[], ps, false, lt⟩)
    (hlen : rs.length = 51)
    (hnodup : (rs.map (fun r => r.full_name)).Nodup)
    (hfresh : ∀ r ∈ rs, r.full_name ∉ ps) :
    (enqueueAll (rs.take 49) eco cat true now st0 store0).autoFlushes = 0 ∧
    (enqueueAll (rs.take 50) eco cat true now st0 store0).autoFlushes = 1 ∧
    (enqueueAll rs eco cat true now st0 store0).autoFlushes = 1 ∧
    (enqueueAll rs eco cat true now st0 store0).state.batch =
      (rs.drop 50).map (fun r => extendRepo r eco cat) ∧
    (enqueueAll rs eco cat true now st0 store0).state.batch.length = 1 ∧
    (flush (enqueueAll rs eco cat true now st0 store0).state
      (enqueueAll rs eco cat true now st0 store0).store true now2).state.batch = [] ∧
    (∀ r ∈ rs, ∃ row ∈ (flush (enqueueAll rs eco cat true now st0 store0).state
        (enqueueAll rs eco cat true now st0 store0).store true now2).store.repositories,
      row.id = r.id) ∧
    ∀ r ∈ rs, r.full_name ∈ (flush (enqueueAll rs eco cat true now st0 store0).state
      (enqueueAll rs eco cat true now st0 store0).store true now2).state.processedRepos := by
  subst hst0
  have hd49 : (rs.drop 49).length = 2 := by rw [List.length_drop]; omega
  obtain ⟨a, b, hab⟩ := List.length_eq_two.mp hd49
  obtain ⟨l1, hl1, hsplit⟩ : ∃ l1 : List GithubRepositoryStats, l1.length = 49 ∧
      rs = l1 ++ [a, b] := by
    refine ⟨rs.take 49, by rw [List.length_take]; omega, ?_⟩
    conv_lhs => rw [← List.take_append_drop 49 rs]
    rw [hab]
  subst hsplit
  -- arithmetic shape of the splits
  have htake49 : (l1 ++ [a, b]).take 49 = l1 := by
    rw [← hl1]
    exact List.take_left l1 [a, b]
  have htake50 : (l1 ++ [a, b]).take 50 = l1 ++ [a] := by
    have h50 : (50 : Nat) = l1.length + 1 := by omega
    rw [h50, List.take_append 1]
    rfl
  have hdrop50 : (l1 ++ [a, b]).drop 50 = [b] := by
    have h50 : (50 : Nat) = l1.length + 1 := by omega
    rw [h50, List.drop_append 1]
    rfl
  -- name bookkeeping
  have hmema : a ∈ l1 ++ [a, b] := by simp
  have hmemb : b ∈ l1 ++ [a, b] := by simp
  have hfa : a.full_name ∉ ps := hfresh a hmema
  have hfb : b.full_name ∉ ps := hfresh b hmemb
  rw [List.map_append, List.nodup_append] at hnodup
  have hbl1 : b.full_name ∉ l1.map (fun r => r.full_name) := by
    intro hmem
    exact hnodup.2.2 hmem (by simp)
  have hba : b.full_name ≠ a.full_name := by
    have h2 := hnodup.2.1
    simp only [List.map_cons, List.map_nil, List.nodup_cons] at h2
    intro heq
    exact h2.1 (by simp [heq.symm])
  have hmapfn : (l1.map (fun r => extendRepo r eco cat)).map
      (fun r : ExtendedRepositoryStats => r.full_name) = l1.map (fun r => r.full_name) := by
    rw [List.map_map]
    rfl
  -- step 1: the 49 first enqueues push without flushing
  have hfold1 : l1.foldl (enqueueStep eco cat true now)
      ⟨⟨[], ps, false, lt⟩, store0, 0⟩ =
      ⟨⟨l1.map (fun r => extendRepo r eco cat), ps, false, lt⟩, store0, 0⟩ := by
    have h := enqueue_fold_no_flush eco cat true now l1 ⟨[], ps, false, lt⟩ store0 0
      (fun r hr => hfresh r (List.mem_append_left _ hr))
      (by
        show ([] : List ExtendedRepositoryStats).length + l1.length < BATCH_SIZE
        simp only [List.length_nil, hl1, BATCH_SIZE]
        omega)
    simpa using h
  -- step 2: the 50th enqueue triggers exactly one successful flush
  have hb50len : (l1.map (fun r => extendRepo r eco cat) ++ [extendRepo a eco cat]).length
      = 50 := by simp [hl1]
  have hps := processBatch_success
    ⟨l1.map (fun r => extendRepo r eco cat) ++ [extendRepo a eco cat], ps, false, lt⟩
    store0 now rfl (by simp)
  dsimp only at hps
  rw [List.take_of_length_le (by rw [hb50len]; decide),
    List.drop_eq_nil_of_le (by rw [hb50len]; decide)] at hps
  have hstep50 : enqueueStep eco cat true now
      ⟨⟨l1.map (fun r => extendRepo r eco cat), ps, false, lt⟩, store0, 0⟩ a =
      ⟨⟨[], ps ++ (l1.map (fun r => extendRepo r eco cat) ++ [extendRepo a eco cat]).map
          (fun r => r.full_name), false, now⟩,
        commitBatch store0 (l1.map (fun r => extendRepo r eco cat) ++ [extendRepo a eco cat])
          now, 1⟩ := by
    unfold enqueueStep
    rw [queueRepository_trigger ⟨l1.map (fun r => extendRepo r eco cat), ps, false, lt⟩
      store0 a eco cat true now hfa
      (by
        show BATCH_SIZE ≤ (l1.map (fun r => extendRepo r eco cat)).length + 1
        simp only [List.length_map, hl1, BATCH_SIZE]
        omega)]
    dsimp only
    rw [hps]
    rfl
  -- step 3: the 51st enqueue pushes without flushing
  have hfb2 : b.full_name ∉
      ps ++ (l1.map (fun r => extendRepo r eco cat) ++ [extendRepo a eco cat]).map
        (fun r : ExtendedRepositoryStats => r.full_name) := by
    rw [List.map_append, hmapfn]
    intro hmem
    rcases List.mem_append.mp hmem with h | h
    · exact hfb h
    · rcases List.mem_append.mp h with h | h
      · exact hbl1 h
      · simp only [List.map_cons, List.map_nil, List.mem_singleton] at h
        exact hba (by rw [h]; rfl)
  have hstep51 : enqueueStep eco cat true now
      ⟨⟨[], ps ++ (l1.map (fun r => extendRepo r eco cat) ++ [extendRepo a eco cat]).map
          (fun r => r.full_name), false, now⟩,
        commitBatch store0 (l1.map (fun r => extendRepo r eco cat) ++ [extendRepo a eco cat])
          now, 1⟩ b =
      ⟨⟨[extendRepo b eco cat],
        ps ++ (l1.map (fun r => extendRepo r eco cat) ++ [extendRepo a eco cat]).map
          (fun r => r.full_name), false, now⟩,
        commitBatch store0 (l1.map (fun r => extendRepo r eco cat) ++ [extendRepo a eco cat])
          now, 1⟩ := by
    unfold enqueueStep
    rw [queueRepository_push _ _ b eco cat true now hfb2
      (by
        show ([] : List ExtendedRepositoryStats).length + 1 < BATCH_SIZE
        simp [BATCH_SIZE])]
    rfl
  -- the full 51-record run
  have hacc : enqueueAll (l1 ++ [a, b]) eco cat true now ⟨[], ps, false, lt⟩ store0 =
      ⟨⟨[extendRepo b eco cat],
        ps ++ (l1.map (fun r => extendRepo r eco cat) ++ [extendRepo a eco cat]).map
          (fun r => r.full_name), false, now⟩,
        commitBatch store0 (l1.map (fun r => extendRepo r eco cat) ++ [extendRepo a eco cat])
          now, 1⟩ := by
    unfold enqueueAll
    rw [List.foldl_append, hfold1]
    show enqueueStep eco cat true now (enqueueStep eco cat true now _ a) b = _
    rw [hstep50, hstep51]
  -- the 49- and 50-record runs
  have hacc49 : enqueueAll ((l1 ++ [a, b]).take 49) eco cat true now
      ⟨[], ps, false, lt⟩ store0 =
      ⟨⟨l1.map (fun r => extendRepo r eco cat), ps, false, lt⟩, store0, 0⟩ := by
    rw [htake49]
    exact hfold1
  have hacc50 : enqueueAll ((l1 ++ [a, b]).take 50) eco cat true now
      ⟨[], ps, false, lt⟩ store0 =
      ⟨⟨[], ps ++ (l1.map (fun r => extendRepo r eco cat) ++ [extendRepo a eco cat]).map
          (fun r => r.full_name), false, now⟩,
        commitBatch store0 (l1.map (fun r => extendRepo r eco cat) ++ [extendRepo a eco cat])
          now, 1⟩ := by
    rw [htake50]
    unfold enqueueAll
    rw [List.foldl_append, hfold1]
    show enqueueStep eco cat true now _ a = _
    rw [hstep50]
  -- the explicit flush of the 51st record
  have hflush := processBatch_success
    ⟨[extendRepo b eco cat],
      ps ++ (l1.map (fun r => extendRepo r eco cat) ++ [extendRepo a eco cat]).map
        (fun r => r.full_name), false, now⟩
    (commitBatch store0 (l1.map (fun r => extendRepo r eco cat) ++ [extendRepo a eco cat]) now)
    now2 rfl (by simp)
  dsimp only at hflush
  have hffl : flush
      ⟨[extendRepo b eco cat],
        ps ++ (l1.map (fun r => extendRepo r eco cat) ++ [extendRepo a eco cat]).map
          (fun r => r.full_name), false, now⟩
      (commitBatch store0 (l1.map (fun r => extendRepo r eco cat) ++ [extendRepo a eco cat]) now)
      true now2 =
      processBatch
        ⟨[extendRepo b eco cat],
          ps ++ (l1.map (fun r => extendRepo r eco cat) ++ [extendRepo a eco cat]).map
            (fun r => r.full_name), false, now⟩
        (commitBatch store0 (l1.map (fun r => extendRepo r eco cat) ++ [extendRepo a eco cat])
          now) true now2 := by
    unfold flush
    rw [if_pos (by simp)]
  refine ⟨?_, ?_, ?_, ?_, ?_, ?_, ?_, ?_⟩
  · rw [hacc49]
  · rw [hacc50]
  · rw [hacc]
  · rw [hacc, hdrop50]
    rfl
  · rw [hacc]
    rfl
  · rw [hacc]
    dsimp only
    rw [hffl, hflush]
    rfl
  · intro r hr
    rw [hacc]
    dsimp only
    rw [hffl, hflush]
    dsimp only
    rcases List.mem_append.mp hr with h | h
    · refine commitBatch_mem_of_mem _ _ now2 r.id ?_
      have hm : extendRepo r eco cat ∈
          l1.map (fun r => extendRepo r eco cat) ++ [extendRepo a eco cat] :=
        List.mem_append_left _ (List.mem_map_of_mem _ h)
      have := commitBatch_mem store0 _ now _ hm
      rw [extendRepo_id] at this
      exact this
    · rcases List.mem_cons.mp h with h | h
      · subst h
        refine commitBatch_mem_of_mem _ _ now2 r.id ?_
        have hm : extendRepo r eco cat ∈
            l1.map (fun x => extendRepo x eco cat) ++ [extendRepo r eco cat] :=
          List.mem_append_right _ (by simp)
        have := commitBatch_mem store0 _ now _ hm
        rw [extendRepo_id] at this
        exact this
      · simp only [List.mem_singleton] at h
        subst h
        have := commitBatch_mem
          (commitBatch store0
            (l1.map (fun x => extendRepo x eco cat) ++ [extendRepo a eco cat]) now)
          [extendRepo r eco cat] now2 (extendRepo r eco cat) (by simp)
        rw [extendRepo_id] at this
        exact this
  · intro r hr
    rw [hacc]
    dsimp only
    rw [hffl, hflush]
    dsimp only
    rcases List.mem_append.mp hr with h | h
    · refine List.mem_append_left _ (List.mem_append_right _ ?_)
      rw [List.map_append, hmapfn]
      exact List.mem_append_left _ (List.mem_map_of_mem _ h)
    · rcases List.mem_cons.mp h with h | h
      · subst h
        refine List.mem_append_left _ (List.mem_append_right _ ?_)

        rw [List.map_append, hmapfn]
        refine List.mem_append_right _ ?_
        exact List.mem_singleton_self _
      · simp only [List.mem_singleton] at h
        subst h
        refine List.mem_append_right _ ?_
        exact List.mem_singleton_self _

/-- Witness for C8: 51 concrete records with pairwise distinct names. -/
theorem enqueue_51_single_autoflush_witness :
    (enqueueAll (Examples.manyRepos.take 49) "eco" "cat" true 5 ⟨[], [], false, 0⟩
      Examples.emptyStorage).autoFlushes = 0 ∧
    (enqueueAll (Examples.manyRepos.take 50) "eco" "cat" true 5 ⟨[], [], false, 0⟩
      Examples.emptyStorage).autoFlushes = 1 ∧
    (enqueueAll Examples.manyRepos "eco" "cat" true 5 ⟨[], [], false, 0⟩
      Examples.emptyStorage).autoFlushes = 1 ∧
    (enqueueAll Examples.manyRepos "eco" "cat" true 5 ⟨[], [], false, 0⟩
      Examples.emptyStorage).state.batch =
      (Examples.manyRepos.drop 50).map (fun r => extendRepo r "eco" "cat") ∧
    (enqueueAll Examples.manyRepos "eco" "cat" true 5 ⟨[], [], false, 0⟩
      Examples.emptyStorage).state.batch.length = 1 ∧
    (flush (enqueueAll Examples.manyRepos "eco" "cat" true 5 ⟨[], [], false, 0⟩
        Examples.emptyStorage).state
      (enqueueAll Examples.manyRepos "eco" "cat" true 5 ⟨[], [], false, 0⟩
        Examples.emptyStorage).store true 9).state.batch = [] ∧
    (∀ r ∈ Examples.manyRepos,
      ∃ row ∈ (flush (enqueueAll Examples.manyRepos "eco" "cat" true 5 ⟨[], [], false, 0⟩
          Examples.emptyStorage).state
        (enqueueAll Examples.manyRepos "eco" "cat" true 5 ⟨[], [], false, 0⟩
          Examples.emptyStorage).store true 9).store.repositories, row.id = r.id) ∧
    ∀ r ∈ Examples.manyRepos,
      r.full_name ∈ (flush (enqueueAll Examples.manyRepos "eco" "cat" true 5 ⟨[], [], false, 0⟩
          Examples.emptyStorage).state
        (enqueueAll Examples.manyRepos "eco" "cat" true 5 ⟨[], [], false, 0⟩
          Examples.emptyStorage).store true 9).state.processedRepos :=
  enqueue_51_single_autoflush Examples.manyRepos "eco" "cat" [] 0 5 9
    Examples.emptyStorage ⟨[], [], false, 0⟩ rfl (by decide) (by decide) (by decide)

/-- Upserting an id that is absent appends the row. -/
theorem upsertRow_fresh (rows : List RepoRow) (r : RepoRow) (now : Nat)
    (h : ∀ row ∈ rows, row.id ≠ r.id) : upsertRow rows r now = rows ++ [r] := by
  have hany : rows.any (fun row => row.id == r.id) = false := by
    rw [List.any_eq_false]
    intro row hrow
    simpa using h row hrow
  unfold upsertRow
  rw [hany]
  rfl

/-- Rows whose id differs from the conflicting id are untouched by the
conflict update map. -/
theorem map_keep_of_ne (r : RepoRow) (now : Nat) :
    ∀ rows : List RepoRow, (∀ row ∈ rows, row.id ≠ r.id) →
      rows.map (fun row => if row.id == r.id then applyConflictUpdate row r now else row) =
        rows := by
  intro rows
  induction rows with
  | nil => intro _; rfl
  | cons x xs ih =>
    intro h
    rw [List.map_cons, if_neg (by simpa using h x (List.mem_cons_self x xs)),
      ih (fun y hy => h y (List.mem_cons_of_mem x hy))]

/-- Upserting onto a table whose only row with the conflicting id is the
last one updates exactly that row via the `ON CONFLICT` SET list. -/
theorem upsertRow_conflict_single (rows : List RepoRow) (old r : RepoRow) (now : Nat)
    (hrows : ∀ row ∈ rows, row.id ≠ r.id) (hold : old.id = r.id) :
    upsertRow (rows ++ [old]) r now = rows ++ [applyConflictUpdate old r now] := by
  have hany : (rows ++ [old]).any (fun row => row.id == r.id) = true := by
    rw [List.any_eq_true]
    exact ⟨old, by simp, by simp [hold]⟩
  unfold upsertRow
  rw [hany, if_pos rfl, List.map_append, map_keep_of_ne r now rows hrows]
  simp [hold]

/-- Replacing the topics of an id that has no stored topics appends them. -/
theorem replaceTopics_fresh (tps : List (Nat × String)) (i : Nat) (ts : List String)
    (h : ∀ p ∈ tps, p.1 ≠ i) : replaceTopics tps i ts = tps ++ ts.map (fun t => (i, t)) := by
  unfold replaceTopics
  congr 1
  rw [List.filter_eq_self]
  intro p hp
  simpa using h p hp

/-- Replacing the topics of an id deletes exactly that id's previous rows
and re-inserts the new set. -/
theorem replaceTopics_replace (tps : List (Nat × String)) (i : Nat) (ts1 ts2 : List String)
    (h : ∀ p ∈ tps, p.1 ≠ i) :
    replaceTopics (tps ++ ts1.map (fun t => (i, t))) i ts2 = tps ++ ts2.map (fun t => (i, t)) := by
  unfold replaceTopics
  rw [List.filter_append]
  have h1 : tps.filter (fun p => !(p.1 == i)) = tps := by
    rw [List.filter_eq_self]
    intro p hp
    simpa using h p hp
  have h2 : (ts1.map (fun t => (i, t))).filter (fun p => !(p.1 == i)) = [] := by
    rw [List.filter_eq_nil_iff]
    intro p hp
    rcases List.mem_map.mp hp with ⟨t, _, ht⟩
    subst ht
    simp
  rw [h1, h2, List.append_nil]

/-- C4 counterexample: two successive single-record flushes with the same id
(7) whose `pushed_at` values differ.  After both flushes the one stored row
keeps the FIRST record's `pushed_at` (the `ON CONFLICT` SET list omits
`pushed_at`), refuting "every scalar column except the identifier and the
original creation timestamp takes the later record's value". -/
theorem upsert_pushed_at_counterexample :
    (flush ⟨[Examples.secondWrite], [], false, 0⟩
      (flush ⟨[Examples.firstWrite], [], false, 0⟩ Examples.emptyStorage true 0).store
      true 0).store.repositories.map (fun row => row.pushed_at) = [some "2020-02-02"] ∧
    Examples.firstWrite.pushed_at = some "2020-02-02" ∧
    Examples.secondWrite.pushed_at = some "2021-03-03" ∧
    Examples.secondWrite.id = Examples.firstWrite.id ∧
    (some "2020-02-02" : Option String) ≠ some "2021-03-03" :=
  ⟨by decide, by decide, by decide, by decide, by decide⟩

/-- C4 amended: for two records with the same id written in successive
flushes into storage previously holding nothing for that id, storage
afterwards holds exactly one row for that id; on conflict exactly the
columns of the `ON CONFLICT` SET list — `name`, `description`, `html_url`,
`homepage`, `language`, the three counts, `updated_at`, `ecosystem`,
`category` (and the `updated_in_db` bookkeeping stamp) — take the later
record's values, while `full_name`, `fork`, `owner_html_url`, `created_at`,
`pushed_at`, `license_name` and `languages_url` keep the first record's
values; the dependent topic rows are fully replaced by the later record's
topic set when that set is non-empty, and left as the first record's topics
when the later set is empty. -/
theorem upsert_last_write_wins_amended
    (e1 e2 : ExtendedRepositoryStats) (store0 : Storage) (ps1 ps2 : List String)
    (lt1 lt2 t1 t2 : Nat)
    (hid : e2.id = e1.id)
    (hrows : ∀ row ∈ store0.repositories, row.id ≠ e1.id)
    (htps : ∀ p ∈ store0.repository_topics, p.1 ≠ e1.id) :
    (flush ⟨[e2], ps2, false, lt2⟩
      (flush ⟨[e1], ps1, false, lt1⟩ store0 true t1).store true t2).store.repositories =
      store0.repositories ++ [applyConflictUpdate (rowOfRepo e1) (rowOfRepo e2) t2] ∧
    (flush ⟨[e2], ps2, false, lt2⟩
      (flush ⟨[e1], ps1, false, lt1⟩ store0 true t1).store true t2).store.repository_topics =
      store0.repository_topics ++
        (if e2.topics.isEmpty then e1.topics else e2.topics).map (fun t => (e1.id, t)) ∧
    ((flush ⟨[e2], ps2, false, lt2⟩
      (flush ⟨[e1], ps1, false, lt1⟩ store0 true t1).store true t2).store.repositories.filter
        (fun row => row.id == e1.id)).length = 1 ∧
    (applyConflictUpdate (rowOfRepo e1) (rowOfRepo e2) t2).id = e1.id ∧
    (applyConflictUpdate (rowOfRepo e1) (rowOfRepo e2) t2).name = e2.name ∧
    (applyConflictUpdate (rowOfRepo e1) (rowOfRepo e2) t2).description = e2.description ∧
    (applyConflictUpdate (rowOfRepo e1) (rowOfRepo e2) t2).html_url = e2.html_url ∧
    (applyConflictUpdate (rowOfRepo e1) (rowOfRepo e2) t2).homepage = e2.homepage ∧
    (applyConflictUpdate (rowOfRepo e1) (rowOfRepo e2) t2).language = e2.language ∧
    (applyConflictUpdate (rowOfRepo e1) (rowOfRepo e2) t2).stargazers_count =
      e2.stargazers_count ∧
    (applyConflictUpdate (rowOfRepo e1) (rowOfRepo e2) t2).watchers_count = e2.watchers_count ∧
    (applyConflictUpdate (rowOfRepo e1) (rowOfRepo e2) t2).forks_count = e2.forks_count ∧
    (applyConflictUpdate (rowOfRepo e1) (rowOfRepo e2) t2).updated_at = e2.updated_at ∧
    (applyConflictUpdate (rowOfRepo e1) (rowOfRepo e2) t2).ecosystem = e2.ecosystem ∧
    (applyConflictUpdate (rowOfRepo e1) (rowOfRepo e2) t2).category = e2.category ∧
    (applyConflictUpdate (rowOfRepo e1) (rowOfRepo e2) t2).updated_in_db = some t2 ∧
    (applyConflictUpdate (rowOfRepo e1) (rowOfRepo e2) t2).full_name = e1.full_name ∧
    (applyConflictUpdate (rowOfRepo e1) (rowOfRepo e2) t2).fork = e1.fork ∧
    (applyConflictUpdate (rowOfRepo e1) (rowOfRepo e2) t2).owner_html_url =
      e1.owner.html_url ∧
    (applyConflictUpdate (rowOfRepo e1) (rowOfRepo e2) t2).created_at = e1.created_at ∧
    (applyConflictUpdate (rowOfRepo e1) (rowOfRepo e2) t2).pushed_at = e1.pushed_at ∧
    (applyConflictUpdate (rowOfRepo e1) (rowOfRepo e2) t2).license_name =
      e1.license.map (fun li => li.name) ∧
    (applyConflictUpdate (rowOfRepo e1) (rowOfRepo e2) t2).languages_url = e1.languages_url := by
  have hf1 := processBatch_success ⟨[e1], ps1, false, lt1⟩ store0 t1 rfl (by simp)
  dsimp only at hf1
  have hffl1 : flush ⟨[e1], ps1, false, lt1⟩ store0 true t1 =
      processBatch ⟨[e1], ps1, false, lt1⟩ store0 true t1 := by
    unfold flush
    rw [if_pos (by simp)]
  have hstore1 : (flush ⟨[e1], ps1, false, lt1⟩ store0 true t1).store =
      commitBatch store0 [e1] t1 := by
    rw [hffl1, hf1]
    rfl
  have hcommit1 : commitBatch store0 [e1] t1 =
      ⟨store0.repositories ++ [rowOfRepo e1],
        store0.repository_topics ++ e1.topics.map (fun t => (e1.id, t))⟩ := by
    show (⟨upsertRow store0.repositories (rowOfRepo e1) t1,
      if e1.topics.isEmpty then store0.repository_topics
      else replaceTopics store0.repository_topics e1.id e1.topics⟩ : Storage) = _
    rw [upsertRow_fresh store0.repositories (rowOfRepo e1) t1
      (by rw [rowOfRepo_id]; exact hrows)]
    by_cases he : e1.topics.isEmpty
    · rw [if_pos he]
      rw [List.isEmpty_iff.mp he]
      simp
    · rw [if_neg he, replaceTopics_fresh store0.repository_topics e1.id e1.topics htps]
  have hf2 := processBatch_success ⟨[e2], ps2, false, lt2⟩
    (commitBatch store0 [e1] t1) t2 rfl (by simp)
  dsimp only at hf2
  have hffl2 : flush ⟨[e2], ps2, false, lt2⟩ (commitBatch store0 [e1] t1) true t2 =
      processBatch ⟨[e2], ps2, false, lt2⟩ (commitBatch store0 [e1] t1) true t2 := by
    unfold flush
    rw [if_pos (by simp)]
  have hstore2 : (flush ⟨[e2], ps2, false, lt2⟩
      (flush ⟨[e1], ps1, false, lt1⟩ store0 true t1).store true t2).store =
      commitBatch (commitBatch store0 [e1] t1) [e2] t2 := by
    rw [hstore1, hffl2, hf2]
    rfl
  have hrepos2 : (commitBatch (commitBatch store0 [e1] t1) [e2] t2).repositories =
      store0.repositories ++ [applyConflictUpdate (rowOfRepo e1) (rowOfRepo e2) t2] := by
    show upsertRow (commitBatch store0 [e1] t1).repositories (rowOfRepo e2) t2 = _
    rw [hcommit1]
    exact upsertRow_conflict_single store0.repositories (rowOfRepo e1) (rowOfRepo e2) t2
      (by rw [rowOfRepo_id, hid]; exact hrows) (by rw [rowOfRepo_id, rowOfRepo_id, hid])
  have htps2 : (commitBatch (commitBatch store0 [e1] t1) [e2] t2).repository_topics =
      store0.repository_topics ++
        (if e2.topics.isEmpty then e1.topics else e2.topics).map (fun t => (e1.id, t)) := by
    show (if e2.topics.isEmpty then (commitBatch store0 [e1] t1).repository_topics
      else replaceTopics (commitBatch store0 [e1] t1).repository_topics e2.id e2.topics) = _
    rw [hcommit1]
    by_cases he2 : e2.topics.isEmpty
    · rw [if_pos he2, if_pos he2]
    · rw [if_neg he2, if_neg he2]
      have := replaceTopics_replace store0.repository_topics e1.id e1.topics e2.topics htps
      rw [hid, this]
  refine ⟨?_, ?_, ?_, rfl, rfl, rfl, rfl, rfl, rfl, rfl, rfl, rfl, rfl, rfl, rfl, rfl,
    rfl, rfl, rfl, rfl, rfl, rfl, rfl⟩
  · rw [hstore2, hrepos2]
  · rw [hstore2, htps2]
  · rw [hstore2, hrepos2, List.filter_append]
    have h1 : store0.repositories.filter (fun row => row.id == e1.id) = [] := by
      rw [List.filter_eq_nil_iff]
      intro row hrow
      simpa using hrows row hrow
    have h2 : [applyConflictUpdate (rowOfRepo e1) (rowOfRepo e2) t2].filter
        (fun row => row.id == e1.id) = [applyConflictUpdate (rowOfRepo e1) (rowOfRepo e2) t2] := by
      rw [List.filter_eq_self]
      intro row hrow
      rw [List.mem_singleton] at hrow
      subst hrow
      simp [applyConflictUpdate_id, rowOfRepo_id]
    rw [h1, h2]
    rfl

/-- Witness for the amended C4: concrete first and second writes for id 7. -/
theorem upsert_last_write_wins_amended_witness :
    (flush ⟨[Examples.secondWrite], [], false, 0⟩
      (flush ⟨[Examples.firstWrite], [], false, 0⟩ Examples.emptyStorage true 0).store
      true 0).store.repositories =
      Examples.emptyStorage.repositories ++
        [applyConflictUpdate (rowOfRepo Examples.firstWrite)
          (rowOfRepo Examples.secondWrite) 0] ∧
    (flush ⟨[Examples.secondWrite], [], false, 0⟩
      (flush ⟨[Examples.firstWrite], [], false, 0⟩ Examples.emptyStorage true 0).store
      true 0).store.repository_topics =
      Examples.emptyStorage.repository_topics ++
        (if Examples.secondWrite.topics.isEmpty then Examples.firstWrite.topics
          else Examples.secondWrite.topics).map (fun t => (Examples.firstWrite.id, t)) ∧
    ((flush ⟨[Examples.secondWrite], [], false, 0⟩
      (flush ⟨[Examples.firstWrite], [], false, 0⟩ Examples.emptyStorage true 0).store
      true 0).store.repositories.filter
        (fun row => row.id == Examples.firstWrite.id)).length = 1 ∧
    (applyConflictUpdate (rowOfRepo Examples.firstWrite) (rowOfRepo Examples.secondWrite)
      0).id = Examples.firstWrite.id ∧
    (applyConflictUpdate (rowOfRepo Examples.firstWrite) (rowOfRepo Examples.secondWrite)
      0).name = Examples.secondWrite.name ∧
    (applyConflictUpdate (rowOfRepo Examples.firstWrite) (rowOfRepo Examples.secondWrite)
      0).description = Examples.secondWrite.description ∧
    (applyConflictUpdate (rowOfRepo Examples.firstWrite) (rowOfRepo Examples.secondWrite)
      0).html_url = Examples.secondWrite.html_url ∧
    (applyConflictUpdate (rowOfRepo Examples.firstWrite) (rowOfRepo Examples.secondWrite)
      0).homepage = Examples.secondWrite.homepage ∧
    (applyConflictUpdate (rowOfRepo Examples.firstWrite) (rowOfRepo Examples.secondWrite)
      0).language = Examples.secondWrite.language ∧
    (applyConflictUpdate (rowOfRepo Examples.firstWrite) (rowOfRepo Examples.secondWrite)
      0).stargazers_count = Examples.secondWrite.stargazers_count ∧
    (applyConflictUpdate (rowOfRepo Examples.firstWrite) (rowOfRepo Examples.secondWrite)
      0).watchers_count = Examples.secondWrite.watchers_count ∧
    (applyConflictUpdate (rowOfRepo Examples.firstWrite) (rowOfRepo Examples.secondWrite)
      0).forks_count = Examples.secondWrite.forks_count ∧
    (applyConflictUpdate (rowOfRepo Examples.firstWrite) (rowOfRepo Examples.secondWrite)
      0).updated_at = Examples.secondWrite.updated_at ∧
    (applyConflictUpdate (rowOfRepo Examples.firstWrite) (rowOfRepo Examples.secondWrite)
      0).ecosystem = Examples.secondWrite.ecosystem ∧
    (applyConflictUpdate (rowOfRepo Examples.firstWrite) (rowOfRepo Examples.secondWrite)
      0).category = Examples.secondWrite.category ∧
    (applyConflictUpdate (rowOfRepo Examples.firstWrite) (rowOfRepo Examples.secondWrite)
      0).updated_in_db = some 0 ∧
    (applyConflictUpdate (rowOfRepo Examples.firstWrite) (rowOfRepo Examples.secondWrite)
      0).full_name = Examples.firstWrite.full_name ∧
    (applyConflictUpdate (rowOfRepo Examples.firstWrite) (rowOfRepo Examples.secondWrite)
      0).fork = Examples.firstWrite.fork ∧
    (applyConflictUpdate (rowOfRepo Examples.firstWrite) (rowOfRepo Examples.secondWrite)
      0).owner_html_url = Examples.firstWrite.owner.html_url ∧
    (applyConflictUpdate (rowOfRepo Examples.firstWrite) (rowOfRepo Examples.secondWrite)
      0).created_at = Examples.firstWrite.created_at ∧
    (applyConflictUpdate (rowOfRepo Examples.firstWrite) (rowOfRepo Examples.secondWrite)
      0).pushed_at = Examples.firstWrite.pushed_at ∧
    (applyConflictUpdate (rowOfRepo Examples.firstWrite) (rowOfRepo Examples.secondWrite)
      0).license_name = Examples.firstWrite.license.map (fun li => li.name) ∧
    (applyConflictUpdate (rowOfRepo Examples.firstWrite) (rowOfRepo Examples.secondWrite)
      0).languages_url = Examples.firstWrite.languages_url :=
  upsert_last_write_wins_amended Examples.firstWrite Examples.secondWrite
    Examples.emptyStorage [] [] 0 0 0 0 (by decide) (by decide) (by decide)

end RepositoryService

namespace GithubClient

/-- C7 counterexample: when every attempt reports 404, `fetchRepository`
does return `null` — but only after the generic retry loop has treated the
not-found as a failure to retry: the retry counter runs to `MAX_RETRIES`
(3 attempts) and the exponential backoff delays of 5000 ms and 10000 ms are
slept before the exhausted 404 is converted to absence.  This refutes "the
not-found response is treated as absence rather than as a failure to retry —
it does not increment the failure counter used for retry backoff". -/
theorem notFound_retry_counterexample :
    (fetchRepository "foo" "bar" allNotFound).result = Except.ok none ∧
    (fetchRepository "foo" "bar" allNotFound).attempts = 3 ∧
    (fetchRepository "foo" "bar" allNotFound).backoffDelays = [5000, 10000] ∧
    (fetchRepository "foo" "bar" allNotFound).backoffDelays ≠ [] :=
  ⟨rfl, rfl, rfl, by decide⟩

/-- C7 amended: if the external API reports the resource as not found on
every attempt, `fetchRepository` returns `null` rather than raising — but
the 404 first passes through the generic retry loop, which performs all
`MAX_RETRIES` attempts and sleeps the exponential backoff delays
`RETRY_DELAY` and `RETRY_DELAY * 2` before the exhausted 404 is converted to
absence (the rate limiter's failed-promise counter, touched only by the
admission queue's timeout/rejection paths, stays untouched on this path). -/
theorem fetchRepository_notFound_amended {α : Type} (owner repo : String)
    (op : Nat → OpResult α) (e : ApiError)
    (hop : ∀ i, op i = OpResult.err e) (hs : e.status = 404) :
    (fetchRepository owner repo op).result = Except.ok none ∧
    (fetchRepository owner repo op).attempts = MAX_RETRIES ∧
    (fetchRepository owner repo op).backoffDelays = [RETRY_DELAY, RETRY_DELAY * 2] := by
  have hfun : op = fun _ => OpResult.err e := funext hop
  subst hfun
  have htr : retryWithBackoff (fun _ => (OpResult.err e : OpResult α)) MAX_RETRIES =
      ⟨Except.error (RetryError.api e), 3, [RETRY_DELAY, RETRY_DELAY * 2]⟩ := rfl
  have hres : fetchRepository owner repo (fun _ => (OpResult.err e : OpResult α)) =
      ⟨Except.ok none, 3, [RETRY_DELAY, RETRY_DELAY * 2]⟩ := by
    unfold fetchRepository
    rw [htr]
    dsimp only
    rw [hs]
    rfl
  rw [hres]
  exact ⟨rfl, rfl, rfl⟩

/-- Witness for the amended C7: the concrete always-404 operation. -/
theorem fetchRepository_notFound_amended_witness :
    (fetchRepository "foo" "bar" allNotFound).result = Except.ok none ∧
    (fetchRepository "foo" "bar" allNotFound).attempts = MAX_RETRIES ∧
    (fetchRepository "foo" "bar" allNotFound).backoffDelays =
      [RETRY_DELAY, RETRY_DELAY * 2] :=
  fetchRepository_notFound_amended "foo" "bar" allNotFound ⟨404, false, none⟩
    (fun _ => rfl) rfl

end GithubClient

end CryptoRepos
